import Mathlib

/-!
Shallow embedding of the ZoKrates `UintOptimizer` pass
(`zokrates_core/src/static_analysis/uint_optimizer.rs`) and proofs of the
specification's claims about it.

The pass walks a ZIR program and annotates every unsigned-integer expression
node with `UMetadata` (a bit bound and a deferred-reduction flag), threading a
definition environment from assignees to metadata. Rust panics (`assert!`,
`unwrap`, `expect`, `unreachable!`) are modelled as `Except.error` with a
distinct error constructor per panic site kind.
-/

/-- Metadata attached to a uint expression node: an optional upper bound in
bits and an optional deferred-reduction flag (`UMetadata` in the source). -/
structure UMetadata where
  bitwidth : Option Nat
  should_reduce : Option Bool
deriving DecidableEq, Repr

/-- Modelled from the spec: field expressions are an external collaborator
("the shift amount is folded as an ordinary non-integer field expression");
their internal structure is opaque to this pass, so we model them as leaves
with no uint metadata and no uint sub-expressions. -/
inductive FieldExpr where
  | FieldValue (v : Nat)
  | FieldIdentifier (id : String)
deriving DecidableEq, Repr

/-- Modelled from the spec: boolean expressions (the `IfElse` condition) are
outside this pass's visible rules ("the condition sub-expression's own
folding/validity is outside this pass's visible rules"), so we model them as
leaves with no uint sub-expressions. -/
inductive BoolExpr where
  | BoolValue (b : Bool)
  | BoolIdentifier (id : String)
deriving DecidableEq, Repr

mutual
/-- A uint expression: optional metadata plus an inner node
(`UExpression { metadata, inner }` in the source; the nominal width `range`
lives in the static type `U : Uint` and is passed to the fold separately). -/
inductive UExp where
  | mk (metadata : Option UMetadata) (inner : UInner)
deriving DecidableEq, Repr

/-- The operator alternatives of a uint expression (`UExpressionInner`). -/
inductive UInner where
  | Value (v : Nat)
  | Identifier (id : String)
  | Add (l r : UExp)
  | Sub (l r : UExp)
  | Mult (l r : UExp)
  | Xor (l r : UExp)
  | And (l r : UExp)
  | Or (l r : UExp)
  | Not (e : UExp)
  | LeftShift (e : UExp) (amount : FieldExpr)
  | RightShift (e : UExp) (amount : FieldExpr)
  | IfElse (c : BoolExpr) (consequence alternative : UExp)
  | FunctionCall (key : String) (args : List FieldExpr)
deriving DecidableEq, Repr
end

/-- The `metadata` field of a uint expression. -/
def UExp.metadata : UExp → Option UMetadata
  | .mk m _ => m

/-- The `inner` field of a uint expression. -/
def UExp.inner : UExp → UInner
  | .mk _ i => i

/-- A variable binding identity: name paired with declared uint width
(`Variable::uint(id, range)` in the source). -/
structure Variable where
  id : String
  range : Nat
deriving DecidableEq, Repr

/-- The definition environment (the optimizer's `ids : HashMap<ZirAssignee,
UMetadata>`), modelled as an association list where insertion shadows. -/
abbrev Env := List (Variable × UMetadata)

/-- Lookup in the environment (`HashMap::get`): first matching entry wins. -/
def envFind : Env → Variable → Option UMetadata
  | [], _ => none
  | (k, v) :: rest, a => if k = a then some v else envFind rest a

/-- Insertion into the environment (`HashMap::insert`): the new entry shadows
any previous entry for the same key. -/
def envInsert (env : Env) (a : Variable) (m : UMetadata) : Env :=
  (a, m) :: env

/-- The panic / fatal-abort sites of the pass, one constructor per kind. -/
inductive Err where
  | fieldTooSmall
  | unresolvedIdentifier
  | unreachableCall
  | panicUnwrap
deriving DecidableEq, Repr

/-- The `should_reduce` value propagated from the folded node's own prior
metadata: `metadata.map(|m| m.should_reduce.unwrap_or(false)).unwrap_or(false)`
in the source, i.e. an absent flag (at either level) defaults to `false`. -/
def propagatedSR (metadata : Option UMetadata) : Bool :=
  (metadata.map (fun m => m.should_reduce.getD false)).getD false

/-- The effective bitwidth of an already-folded operand:
`m.should_reduce.map(|sr| if sr { range } else { m.bitwidth.unwrap() }).unwrap()`
in the source. An absent `should_reduce` flag — or an absent `bitwidth` when
the flag is `false` — is an `unwrap` panic. -/
def effBW (range : Nat) (m : UMetadata) : Except Err Nat :=
  match m.should_reduce with
  | none => .error .panicUnwrap
  | some true => .ok range
  | some false =>
    match m.bitwidth with
    | none => .error .panicUnwrap
    | some b => .ok b

/-- The `metadata.clone().unwrap()` idiom of the source. -/
def unwrapMeta (m : Option UMetadata) : Except Err UMetadata :=
  match m with
  | none => .error .panicUnwrap
  | some md => .ok md

/-- The default fold of a field expression: the pass does not override
`fold_field_expression`, and in our model field expressions have no uint
sub-expressions, so the generic traversal is the identity. -/
def fold_field_expression (e : FieldExpr) : FieldExpr := e

/-- The default fold of a boolean expression (generic traversal, identity in
our model). -/
def fold_boolean_expression (e : BoolExpr) : BoolExpr := e

mutual
/-- `fold_uint_expression` from the source. `reqBits` is
`T::get_required_bits()`; `range` is `e.bitwidth()`, fixed by the expression's
static type and hence identical on every node of one uint tree. The
`assert!(range < max_bitwidth / 2)` and the idempotence short-circuit run
before the per-operator dispatch. -/
def foldU (reqBits : Nat) (env : Env) (range : Nat) : UExp → Except Err UExp
  | .mk metadata inner =>
    let max_bitwidth := reqBits - 1
    if range < max_bitwidth / 2 then
      if metadata.isSome then .ok (.mk metadata inner)
      else foldInner reqBits env range metadata inner
    else .error .fieldTooSmall

/-- The per-operator dispatch of `fold_uint_expression` (the `match inner`
in the source, with `metadata` the node's own prior metadata, known to be
`none` past the short-circuit but threaded literally). -/
def foldInner (reqBits : Nat) (env : Env) (range : Nat)
    (metadata : Option UMetadata) : UInner → Except Err UExp
  | .Value v =>
    .ok (.mk (some ⟨some range, some (propagatedSR metadata)⟩) (.Value v))
  | .Identifier id =>
    match envFind env ⟨id, range⟩ with
    | none => .error .unresolvedIdentifier
    | some m => .ok (.mk (some m) (.Identifier id))
  | .Add l r => do
    let left ← foldU reqBits env range l
    let right ← foldU reqBits env range r
    let left_metadata ← unwrapMeta left.metadata
    let right_metadata ← unwrapMeta right.metadata
    let left_bitwidth ← effBW range left_metadata
    let right_bitwidth ← effBW range right_metadata
    let output_width := max left_bitwidth right_bitwidth + 1
    if output_width > reqBits - 1 then
      .ok (.mk (some ⟨some (range + 1), some (propagatedSR metadata)⟩)
        (.Add (.mk (some ⟨left_metadata.bitwidth, some true⟩) left.inner)
              (.mk (some ⟨right_metadata.bitwidth, some true⟩) right.inner)))
    else
      .ok (.mk (some ⟨some output_width, some (propagatedSR metadata)⟩)
        (.Add left right))
  | .Sub l r => do
    let left ← foldU reqBits env range l
    let right ← foldU reqBits env range r
    let left_metadata ← unwrapMeta left.metadata
    let right_metadata ← unwrapMeta right.metadata
    let left_bitwidth ← effBW range left_metadata
    let right_bitwidth ← effBW range right_metadata
    let output_width := max left_bitwidth right_bitwidth + 1
    if output_width > reqBits - 1 then
      .ok (.mk (some ⟨some (range + 1), some (propagatedSR metadata)⟩)
        (.Sub (.mk (some ⟨left_metadata.bitwidth, some true⟩) left.inner)
              (.mk (some ⟨right_metadata.bitwidth, some true⟩) right.inner)))
    else
      .ok (.mk (some ⟨some output_width, some (propagatedSR metadata)⟩)
        (.Sub left right))
  | .Mult l r => do
    let left ← foldU reqBits env range l
    let right ← foldU reqBits env range r
    let left_metadata ← unwrapMeta left.metadata
    let right_metadata ← unwrapMeta right.metadata
    let left_bitwidth ← effBW range left_metadata
    let right_bitwidth ← effBW range right_metadata
    let output_width := left_bitwidth + right_bitwidth
    if output_width > reqBits - 1 then
      .ok (.mk (some ⟨some (2 * range), some (propagatedSR metadata)⟩)
        (.Mult (.mk (some ⟨left_metadata.bitwidth, some true⟩) left.inner)
               (.mk (some ⟨right_metadata.bitwidth, some true⟩) right.inner)))
    else
      .ok (.mk (some ⟨some output_width, some (propagatedSR metadata)⟩)
        (.Mult left right))
  | .Xor l r => do
    let left ← foldU reqBits env range l
    let right ← foldU reqBits env range r
    let left_metadata ← unwrapMeta left.metadata
    let right_metadata ← unwrapMeta right.metadata
    .ok (.mk (some ⟨some range, some true⟩)
      (.Xor (.mk (some ⟨left_metadata.bitwidth, some true⟩) left.inner)
            (.mk (some ⟨right_metadata.bitwidth, some true⟩) right.inner)))
  | .And l r => do
    let left ← foldU reqBits env range l
    let right ← foldU reqBits env range r
    let left_metadata ← unwrapMeta left.metadata
    let right_metadata ← unwrapMeta right.metadata
    .ok (.mk (some ⟨some range, some true⟩)
      (.And (.mk (some ⟨left_metadata.bitwidth, some true⟩) left.inner)
            (.mk (some ⟨right_metadata.bitwidth, some true⟩) right.inner)))
  | .Or l r => do
    let left ← foldU reqBits env range l
    let right ← foldU reqBits env range r
    let left_metadata ← unwrapMeta left.metadata
    let right_metadata ← unwrapMeta right.metadata
    .ok (.mk (some ⟨some range, some true⟩)
      (.Or (.mk (some ⟨left_metadata.bitwidth, some true⟩) left.inner)
           (.mk (some ⟨right_metadata.bitwidth, some true⟩) right.inner)))
  | .Not e => do
    let e1 ← foldU reqBits env range e
    let e_metadata ← unwrapMeta e1.metadata
    .ok (.mk (some ⟨some range, some true⟩)
      (.Not (.mk (some ⟨e_metadata.bitwidth, some true⟩) e1.inner)))
  | .LeftShift e amount => do
    let e1 ← foldU reqBits env range e
    let amount1 := fold_field_expression amount
    let e_metadata ← unwrapMeta e1.metadata
    .ok (.mk (some ⟨some range, some true⟩)
      (.LeftShift (.mk (some ⟨e_metadata.bitwidth, some true⟩) e1.inner) amount1))
  | .RightShift e amount => do
    let e1 ← foldU reqBits env range e
    let amount1 := fold_field_expression amount
    let e_metadata ← unwrapMeta e1.metadata
    .ok (.mk (some ⟨some range, some true⟩)
      (.RightShift (.mk (some ⟨e_metadata.bitwidth, some true⟩) e1.inner) amount1))
  | .FunctionCall _ _ => .error .unreachableCall
  | .IfElse condition consequence alternative => do
    let consequence1 ← foldU reqBits env range consequence
    let alternative1 ← foldU reqBits env range alternative
    let consequence_metadata ← unwrapMeta consequence1.metadata
    let alternative_metadata ← unwrapMeta alternative1.metadata
    let consequence_bitwidth ← effBW range consequence_metadata
    let alternative_bitwidth ← effBW range alternative_metadata
    let output_width := max consequence_bitwidth alternative_bitwidth
    .ok (.mk (some ⟨some output_width, some (propagatedSR metadata)⟩)
      (.IfElse condition consequence1 alternative1))
end

/-- Modelled from the spec: the ZIR expression sum over value kinds — the
three uint widths the pass dispatches on (`ZirExpression::U8/U16/U32` in
`register` and the `Return` arm), plus field and boolean kinds handled by the
generic traversal. -/
inductive ZirExpression where
  | U8 (e : UExp)
  | U16 (e : UExp)
  | U32 (e : UExp)
  | FieldElement (e : FieldExpr)
  | Boolean (e : BoolExpr)
deriving DecidableEq, Repr

/-- Modelled from the spec: the generic `fold_expression` dispatch — "each
definition's right-hand expression is folded (dispatching on its value kind;
integer-kind expressions go through 4.1, all other kinds go through the
unrelated generic folding)". The width passed to `foldU` is the one fixed by
the expression's static type. -/
def fold_expression (reqBits : Nat) (env : Env) : ZirExpression → Except Err ZirExpression
  | .U8 e => ZirExpression.U8 <$> foldU reqBits env 8 e
  | .U16 e => ZirExpression.U16 <$> foldU reqBits env 16 e
  | .U32 e => ZirExpression.U32 <$> foldU reqBits env 32 e
  | .FieldElement e => .ok (.FieldElement (fold_field_expression e))
  | .Boolean e => .ok (.Boolean (fold_boolean_expression e))

/-- `UintOptimizer::register` from the source: insert the folded expression's
metadata (`e.metadata.unwrap()`) keyed by the assignee when the expression is
integer-kind; do nothing otherwise. -/
def register (env : Env) (a : Variable) (e : ZirExpression) : Except Err Env :=
  match e with
  | .U32 u => do let m ← unwrapMeta u.metadata; .ok (envInsert env a m)
  | .U16 u => do let m ← unwrapMeta u.metadata; .ok (envInsert env a m)
  | .U8 u => do let m ← unwrapMeta u.metadata; .ok (envInsert env a m)
  | _ => .ok env

/-- Modelled from the spec: ZIR statements — `Definition` and `Return` are
overridden by the pass; `Assertion` stands for "all other statement kinds",
left to the generic traversal. -/
inductive ZirStatement where
  | Definition (a : Variable) (e : ZirExpression)
  | Return (es : List ZirExpression)
  | Assertion (b : BoolExpr)
deriving DecidableEq, Repr

/-- The per-element closure of `fold_statement`'s `Return` arm: fold an
integer-kind returned expression and re-mark it `should_reduce = Some(true)`
(keeping the bitwidth the recursive rule computed); other kinds go through
the generic `fold_expression`. -/
def foldReturnExpr (reqBits : Nat) (env : Env) : ZirExpression → Except Err ZirExpression
  | .U32 u => do
    let u1 ← foldU reqBits env 32 u
    let m ← unwrapMeta u1.metadata
    .ok (.U32 (.mk (some ⟨m.bitwidth, some true⟩) u1.inner))
  | .U16 u => do
    let u1 ← foldU reqBits env 16 u
    let m ← unwrapMeta u1.metadata
    .ok (.U16 (.mk (some ⟨m.bitwidth, some true⟩) u1.inner))
  | .U8 u => do
    let u1 ← foldU reqBits env 8 u
    let m ← unwrapMeta u1.metadata
    .ok (.U8 (.mk (some ⟨m.bitwidth, some true⟩) u1.inner))
  | e => fold_expression reqBits env e

/-- `fold_statement` from the source. The environment is the optimizer's
mutable `ids` map, threaded explicitly: the `Definition` arm folds the
right-hand side and registers it; the `Return` arm maps `foldReturnExpr`
over the returned expressions; other statements go through the generic
traversal (identity on boolean leaves in our model). -/
def fold_statement (reqBits : Nat) (env : Env) :
    ZirStatement → Except Err (Env × List ZirStatement)
  | .Definition a e => do
    let e1 ← fold_expression reqBits env e
    let env1 ← register env a e1
    .ok (env1, [.Definition a e1])
  | .Return es => do
    let es1 ← es.mapM (foldReturnExpr reqBits env)
    .ok (env, [.Return es1])
  | .Assertion b => .ok (env, [.Assertion (fold_boolean_expression b)])

/-- Modelled from the spec: a ZIR function is its statement list (argument
declarations play no role in the pass's visible rules). -/
structure ZirFunction where
  statements : List ZirStatement
deriving DecidableEq, Repr

/-- Modelled from the spec: a ZIR program is its list of functions; the
driver "walks every function's statement list in order" with one environment
persisting across function boundaries. -/
structure ZirProgram where
  functions : List ZirFunction
deriving DecidableEq, Repr

/-- Fold a statement list in order, threading the environment and
concatenating the rewritten statements (the generic `fold_function` body). -/
def foldStatements (reqBits : Nat) : Env → List ZirStatement → Except Err (Env × List ZirStatement)
  | env, [] => .ok (env, [])
  | env, s :: rest => do
    let (env1, out) ← fold_statement reqBits env s
    let (env2, outRest) ← foldStatements reqBits env1 rest
    .ok (env2, out ++ outRest)

/-- Fold every function in order, threading the single environment across
function boundaries (the generic `fold_program` body). -/
def foldFunctions (reqBits : Nat) : Env → List ZirFunction → Except Err (Env × List ZirFunction)
  | env, [] => .ok (env, [])
  | env, f :: rest => do
    let (env1, sts) ← foldStatements reqBits env f.statements
    let (env2, outRest) ← foldFunctions reqBits env1 rest
    .ok (env2, ⟨sts⟩ :: outRest)

/-- `UintOptimizer::optimize`: fold the whole program starting from an empty
environment. -/
def optimize (reqBits : Nat) (p : ZirProgram) : Except Err ZirProgram := do
  let (_, fs) ← foldFunctions reqBits [] p.functions
  .ok ⟨fs⟩

mutual
/-- Does every node of this uint expression carry metadata with both fields
present (`bitwidth` and `should_reduce` both `Some`)? -/
def UExp.resolved : UExp → Bool
  | .mk (some md) inner =>
    md.bitwidth.isSome && md.should_reduce.isSome && UInner.childrenResolved inner
  | .mk none _ => false

/-- Are all uint sub-expressions of this inner node fully resolved? -/
def UInner.childrenResolved : UInner → Bool
  | .Value _ => true
  | .Identifier _ => true
  | .Add l r => l.resolved && r.resolved
  | .Sub l r => l.resolved && r.resolved
  | .Mult l r => l.resolved && r.resolved
  | .Xor l r => l.resolved && r.resolved
  | .And l r => l.resolved && r.resolved
  | .Or l r => l.resolved && r.resolved
  | .Not e => e.resolved
  | .LeftShift e _ => e.resolved
  | .RightShift e _ => e.resolved
  | .IfElse _ t f => t.resolved && f.resolved
  | .FunctionCall _ _ => true
end

mutual
/-- Is this uint expression completely metadata-free (a freshly parsed tree,
never touched by the pass)? -/
def UExp.fresh : UExp → Bool
  | .mk none inner => UInner.childrenFresh inner
  | .mk (some _) _ => false

/-- Are all uint sub-expressions of this inner node metadata-free? -/
def UInner.childrenFresh : UInner → Bool
  | .Value _ => true
  | .Identifier _ => true
  | .Add l r => l.fresh && r.fresh
  | .Sub l r => l.fresh && r.fresh
  | .Mult l r => l.fresh && r.fresh
  | .Xor l r => l.fresh && r.fresh
  | .And l r => l.fresh && r.fresh
  | .Or l r => l.fresh && r.fresh
  | .Not e => e.fresh
  | .LeftShift e _ => e.fresh
  | .RightShift e _ => e.fresh
  | .IfElse _ t f => t.fresh && f.fresh
  | .FunctionCall _ _ => true
end

/-- Lift of `UExp.resolved` to expression kinds: integer-kind expressions must
be fully resolved; other kinds carry no uint metadata in our model. -/
def ZirExpression.resolved : ZirExpression → Bool
  | .U8 e => e.resolved
  | .U16 e => e.resolved
  | .U32 e => e.resolved
  | .FieldElement _ => true
  | .Boolean _ => true

/-- Lift of `UExp.fresh` to expression kinds. -/
def ZirExpression.fresh : ZirExpression → Bool
  | .U8 e => e.fresh
  | .U16 e => e.fresh
  | .U32 e => e.fresh
  | .FieldElement _ => true
  | .Boolean _ => true

/-- Every integer-kind expression node in this statement is fully resolved. -/
def ZirStatement.resolved : ZirStatement → Bool
  | .Definition _ e => e.resolved
  | .Return es => es.all ZirExpression.resolved
  | .Assertion _ => true

/-- Every integer-kind expression node in this statement is metadata-free. -/
def ZirStatement.fresh : ZirStatement → Bool
  | .Definition _ e => e.fresh
  | .Return es => es.all ZirExpression.fresh
  | .Assertion _ => true

/-- Every integer-kind expression node in this program is fully resolved. -/
def ZirProgram.resolved (p : ZirProgram) : Bool :=
  p.functions.all (fun f => f.statements.all ZirStatement.resolved)

/-- Every integer-kind expression node in this program is metadata-free. -/
def ZirProgram.fresh (p : ZirProgram) : Bool :=
  p.functions.all (fun f => f.statements.all ZirStatement.fresh)

/-- Every metadata record stored in the environment has both fields present. -/
def envResolved (env : Env) : Prop :=
  ∀ k m, envFind env k = some m →
    m.bitwidth.isSome = true ∧ m.should_reduce.isSome = true

/-- A program whose definition right-hand side already carries root metadata
while its children are metadata-free: the idempotence short-circuit returns
the annotated node untouched, children included. -/
def progC4 : ZirProgram :=
  ⟨[⟨[.Definition ⟨"x", 8⟩ (.U8 (.mk (some ⟨some 8, some false⟩)
      (.Add (.mk none (.Value 1)) (.mk none (.Value 1)))))]⟩]⟩

/-! ### Helper lemmas -/

theorem bindOk {α β : Type} {x : Except Err α} {f : α → Except Err β} {v : β} :
    x >>= f = .ok v ↔ ∃ a, x = .ok a ∧ f a = .ok v := by
  cases x <;> simp [Bind.bind, Except.bind]

theorem bindErr {α β : Type} {x : Except Err α} {f : α → Except Err β} {k : Err} :
    x >>= f = .error k ↔ x = .error k ∨ ∃ a, x = .ok a ∧ f a = .error k := by
  cases x <;> simp [Bind.bind, Except.bind]

theorem unwrapMeta_ok {m : Option UMetadata} {md : UMetadata} :
    unwrapMeta m = .ok md ↔ m = some md := by
  cases m <;> simp [unwrapMeta]

theorem unwrapMeta_err {m : Option UMetadata} {k : Err}
    (h : unwrapMeta m = .error k) : k = .panicUnwrap := by
  cases m <;> simp [unwrapMeta] at h
  exact h.symm

theorem effBW_err {range : Nat} {m : UMetadata} {k : Err}
    (h : effBW range m = .error k) : k = .panicUnwrap := by
  rcases m with ⟨b, sr⟩
  rcases sr with _ | sr
  · simp [effBW] at h; exact h.symm
  · cases sr
    · cases b <;> simp [effBW] at h
      exact h.symm
    · simp [effBW] at h

theorem foldU_ok_range {reqBits : Nat} {env : Env} {range : Nat} {e u : UExp}
    (h : foldU reqBits env range e = .ok u) : range < (reqBits - 1) / 2 := by
  cases e with
  | mk metadata inner =>
    by_cases hr : range < (reqBits - 1) / 2
    · exact hr
    · simp [foldU, hr] at h

theorem foldU_fresh {reqBits : Nat} {env : Env} {range : Nat} {inner : UInner}
    (hr : range < (reqBits - 1) / 2) :
    foldU reqBits env range (.mk none inner) = foldInner reqBits env range none inner := by
  simp [foldU, hr]

theorem foldU_short {reqBits : Nat} {env : Env} {range : Nat} {m : UMetadata} {inner : UInner}
    (hr : range < (reqBits - 1) / 2) :
    foldU reqBits env range (.mk (some m) inner) = .ok (.mk (some m) inner) := by
  simp [foldU, hr]

theorem foldInner_ok_isSome {reqBits : Nat} {env : Env} {range : Nat}
    {md : Option UMetadata} {inner : UInner} {u : UExp}
    (h : foldInner reqBits env range md inner = .ok u) : u.metadata.isSome = true := by
  cases inner with
  | Value v => simp [foldInner] at h; simp [← h, UExp.metadata]
  | Identifier id =>
    cases henv : envFind env ⟨id, range⟩ <;> simp [foldInner, henv] at h
    simp [← h, UExp.metadata]
  | Add l r =>
    simp [foldInner, bindOk, unwrapMeta_ok] at h
    obtain ⟨l1, hl, r1, hr1, lm, hlm, rm, hrm, el, hel, er, her, hif⟩ := h
    split at hif <;> (injection hif with he; simp [← he, UExp.metadata])
  | Sub l r =>
    simp [foldInner, bindOk, unwrapMeta_ok] at h
    obtain ⟨l1, hl, r1, hr1, lm, hlm, rm, hrm, el, hel, er, her, hif⟩ := h
    split at hif <;> (injection hif with he; simp [← he, UExp.metadata])
  | Mult l r =>
    simp [foldInner, bindOk, unwrapMeta_ok] at h
    obtain ⟨l1, hl, r1, hr1, lm, hlm, rm, hrm, el, hel, er, her, hif⟩ := h
    split at hif <;> (injection hif with he; simp [← he, UExp.metadata])
  | Xor l r =>
    simp [foldInner, bindOk, unwrapMeta_ok] at h
    obtain ⟨l1, hl, r1, hr1, lm, hlm, rm, hrm, hfin⟩ := h
    simp [← hfin, UExp.metadata]
  | And l r =>
    simp [foldInner, bindOk, unwrapMeta_ok] at h
    obtain ⟨l1, hl, r1, hr1, lm, hlm, rm, hrm, hfin⟩ := h
    simp [← hfin, UExp.metadata]
  | Or l r =>
    simp [foldInner, bindOk, unwrapMeta_ok] at h
    obtain ⟨l1, hl, r1, hr1, lm, hlm, rm, hrm, hfin⟩ := h
    simp [← hfin, UExp.metadata]
  | Not e =>
    simp [foldInner, bindOk, unwrapMeta_ok] at h
    obtain ⟨e1, he1, em, hem, hfin⟩ := h
    simp [← hfin, UExp.metadata]
  | LeftShift e amount =>
    simp [foldInner, bindOk, unwrapMeta_ok] at h
    obtain ⟨e1, he1, em, hem, hfin⟩ := h
    simp [← hfin, UExp.metadata]
  | RightShift e amount =>
    simp [foldInner, bindOk, unwrapMeta_ok] at h
    obtain ⟨e1, he1, em, hem, hfin⟩ := h
    simp [← hfin, UExp.metadata]
  | FunctionCall k args => simp [foldInner] at h
  | IfElse c t f =>
    simp [foldInner, bindOk, unwrapMeta_ok] at h
    obtain ⟨c1, hc, a1, ha, cm, hcm, am, ham, ec, hec, ea, hea, hfin⟩ := h
    simp [← hfin, UExp.metadata]

theorem foldU_ok_isSome {reqBits : Nat} {env : Env} {range : Nat} {e u : UExp}
    (h : foldU reqBits env range e = .ok u) : u.metadata.isSome = true := by
  rcases e with ⟨md, inner⟩
  have hr := foldU_ok_range h
  rcases md with _ | m
  · rw [foldU_fresh hr] at h
    exact foldInner_ok_isSome h
  · rw [foldU_short hr] at h
    injection h with he
    simp [← he, UExp.metadata]

theorem foldU_refold {reqBits : Nat} {env : Env} {range : Nat} {e u : UExp}
    (h : foldU reqBits env range e = .ok u) :
    ∀ env2, foldU reqBits env2 range u = .ok u := by
  intro env2
  have hr := foldU_ok_range h
  have hs := foldU_ok_isSome h
  rcases u with ⟨md, inner⟩
  rcases md with _ | m
  · simp [UExp.metadata] at hs
  · exact foldU_short hr

theorem lt_pow_max_left {a p q : Nat} (ha : a < 2 ^ p) : a < 2 ^ max p q :=
  lt_of_lt_of_le ha (Nat.pow_le_pow_right (by norm_num) (le_max_left p q))

theorem lt_pow_max_right {c p q : Nat} (hc : c < 2 ^ q) : c < 2 ^ max p q :=
  lt_of_lt_of_le hc (Nat.pow_le_pow_right (by norm_num) (le_max_right p q))

theorem add_lt_pow_succ_max {a c p q : Nat} (ha : a < 2 ^ p) (hc : c < 2 ^ q) :
    a + c < 2 ^ (max p q + 1) := by
  have h1 := lt_pow_max_left (q := q) ha
  have h2 := lt_pow_max_right (p := p) hc
  have h3 : 2 ^ (max p q + 1) = 2 ^ max p q * 2 := pow_succ 2 (max p q)
  omega

theorem mul_lt_pow_add {a c p q : Nat} (ha : a < 2 ^ p) (hc : c < 2 ^ q) :
    a * c < 2 ^ (p + q) :=
  calc a * c < 2 ^ p * 2 ^ q := mul_lt_mul'' ha hc (Nat.zero_le _) (Nat.zero_le _)
  _ = 2 ^ (p + q) := (pow_add 2 p q).symm

/-! ### Claim theorems -/

/-- C1: Bound soundness. For every freshly annotated `Add`, `Mult`, or
`IfElse` node the pass emits, assuming each operand of the emitted node has a
value strictly below 2 raised to that operand's effective bound (`range` if
its `should_reduce` flag is true, otherwise its stored bitwidth, as computed
by `effBW`), the node's own value — sum, product, or selected branch — is
strictly below 2 raised to the bitwidth the pass records for the node
(`max(effL, effR) + 1` for `Add`, `effL + effR` for `Mult`, and
`max(effConsequence, effAlternative)` with no `+1` for `IfElse`, with the
fallback bounds on overflow). -/
theorem C1_bound_soundness (reqBits range : Nat) (env : Env) :
    (∀ l r out, foldU reqBits env range (.mk none (.Add l r)) = .ok out →
      ∃ b sr l1 r1 lm rm el er,
        out = .mk (some ⟨some b, sr⟩) (.Add l1 r1) ∧
        l1.metadata = some lm ∧ r1.metadata = some rm ∧
        effBW range lm = .ok el ∧ effBW range rm = .ok er ∧
        ∀ a c : Nat, a < 2 ^ el → c < 2 ^ er → a + c < 2 ^ b) ∧
    (∀ l r out, foldU reqBits env range (.mk none (.Mult l r)) = .ok out →
      ∃ b sr l1 r1 lm rm el er,
        out = .mk (some ⟨some b, sr⟩) (.Mult l1 r1) ∧
        l1.metadata = some lm ∧ r1.metadata = some rm ∧
        effBW range lm = .ok el ∧ effBW range rm = .ok er ∧
        ∀ a c : Nat, a < 2 ^ el → c < 2 ^ er → a * c < 2 ^ b) ∧
    (∀ cond t f out, foldU reqBits env range (.mk none (.IfElse cond t f)) = .ok out →
      ∃ b sr c1 a1 cm am ec ea,
        out = .mk (some ⟨some b, sr⟩) (.IfElse cond c1 a1) ∧
        c1.metadata = some cm ∧ a1.metadata = some am ∧
        effBW range cm = .ok ec ∧ effBW range am = .ok ea ∧
        ∀ a c : Nat, a < 2 ^ ec → c < 2 ^ ea → a < 2 ^ b ∧ c < 2 ^ b) := by
  refine ⟨?_, ?_, ?_⟩
  · intro l r out h
    have hrg := foldU_ok_range h
    rw [foldU_fresh hrg] at h
    simp [foldInner, bindOk, unwrapMeta_ok] at h
    obtain ⟨l1, hl, r1, hr1, lm, hlm, rm, hrm, el, hel, er, her, hif⟩ := h
    split at hif
    · injection hif with he
      refine ⟨range + 1, some (propagatedSR none), _, _, ⟨lm.bitwidth, some true⟩,
        ⟨rm.bitwidth, some true⟩, range, range, he.symm, rfl, rfl, rfl, rfl, ?_⟩
      intro a c ha hc
      have := add_lt_pow_succ_max ha hc
      simpa [Nat.max_self] using this
    · injection hif with he
      refine ⟨max el er + 1, some (propagatedSR none), l1, r1, lm, rm, el, er,
        he.symm, hlm, hrm, hel, her, ?_⟩
      intro a c ha hc
      exact add_lt_pow_succ_max ha hc
  · intro l r out h
    have hrg := foldU_ok_range h
    rw [foldU_fresh hrg] at h
    simp [foldInner, bindOk, unwrapMeta_ok] at h
    obtain ⟨l1, hl, r1, hr1, lm, hlm, rm, hrm, el, hel, er, her, hif⟩ := h
    split at hif
    · injection hif with he
      refine ⟨2 * range, some (propagatedSR none), _, _, ⟨lm.bitwidth, some true⟩,
        ⟨rm.bitwidth, some true⟩, range, range, he.symm, rfl, rfl, rfl, rfl, ?_⟩
      intro a c ha hc
      have := mul_lt_pow_add ha hc
      simpa [two_mul] using this
    · injection hif with he
      refine ⟨el + er, some (propagatedSR none), l1, r1, lm, rm, el, er,
        he.symm, hlm, hrm, hel, her, ?_⟩
      intro a c ha hc
      exact mul_lt_pow_add ha hc
  · intro cond t f out h
    have hrg := foldU_ok_range h
    rw [foldU_fresh hrg] at h
    simp [foldInner, bindOk, unwrapMeta_ok] at h
    obtain ⟨c1, hc, a1, ha1, cm, hcm, am, ham, ec, hec, ea, hea, hfin⟩ := h
    refine ⟨max ec ea, some (propagatedSR none), c1, a1, cm, am, ec, ea,
      hfin.symm, hcm, ham, hec, hea, ?_⟩
    intro a c ha hc
    exact ⟨lt_pow_max_left ha, lt_pow_max_right hc⟩

/-- Witness for C1: the `Add` conjunct instantiated at `1 + 2` over `u8` with
a 254-bit field. -/
theorem C1_bound_soundness_witness :
    ∃ b sr l1 r1 lm rm el er,
      UExp.mk (some ⟨some 9, some false⟩)
        (.Add (.mk (some ⟨some 8, some false⟩) (.Value 1))
              (.mk (some ⟨some 8, some false⟩) (.Value 2))) =
        .mk (some ⟨some b, sr⟩) (.Add l1 r1) ∧
      l1.metadata = some lm ∧ r1.metadata = some rm ∧
      effBW 8 lm = .ok el ∧ effBW 8 rm = .ok er ∧
      ∀ a c : Nat, a < 2 ^ el → c < 2 ^ er → a + c < 2 ^ b :=
  (C1_bound_soundness 254 8 []).1 (.mk none (.Value 1)) (.mk none (.Value 2)) _ rfl

/-- C2: Overflow-guarding. For a freshly annotated `Add`, `Sub`, or `Mult`
node over operands whose folds succeed with effective bounds `el`, `er`:
when the naive bound (`max el er + 1` for `Add`/`Sub`, `el + er` for `Mult`)
exceeds `maxBitwidth = reqBits - 1`, both operands of the emitted node are
re-marked `should_reduce = Some(true)` and the recorded bitwidth is the
fallback (`range + 1` for `Add`/`Sub`, `2 * range` for `Mult`); otherwise the
recorded bitwidth is the naive value and the operands are passed through
exactly as folded, their `should_reduce` flags untouched. -/
theorem C2_overflow_guarding (reqBits range : Nat) (env : Env)
    (l r l1 r1 : UExp) (lm rm : UMetadata) (el er : Nat)
    (hl : foldU reqBits env range l = .ok l1)
    (hr : foldU reqBits env range r = .ok r1)
    (hlm : l1.metadata = some lm) (hrm : r1.metadata = some rm)
    (hel : effBW range lm = .ok el) (her : effBW range rm = .ok er) :
    (foldU reqBits env range (.mk none (.Add l r)) =
      .ok (if max el er + 1 > reqBits - 1 then
        .mk (some ⟨some (range + 1), some false⟩)
          (.Add (.mk (some ⟨lm.bitwidth, some true⟩) l1.inner)
                (.mk (some ⟨rm.bitwidth, some true⟩) r1.inner))
      else .mk (some ⟨some (max el er + 1), some false⟩) (.Add l1 r1))) ∧
    (foldU reqBits env range (.mk none (.Sub l r)) =
      .ok (if max el er + 1 > reqBits - 1 then
        .mk (some ⟨some (range + 1), some false⟩)
          (.Sub (.mk (some ⟨lm.bitwidth, some true⟩) l1.inner)
                (.mk (some ⟨rm.bitwidth, some true⟩) r1.inner))
      else .mk (some ⟨some (max el er + 1), some false⟩) (.Sub l1 r1))) ∧
    (foldU reqBits env range (.mk none (.Mult l r)) =
      .ok (if el + er > reqBits - 1 then
        .mk (some ⟨some (2 * range), some false⟩)
          (.Mult (.mk (some ⟨lm.bitwidth, some true⟩) l1.inner)
                 (.mk (some ⟨rm.bitwidth, some true⟩) r1.inner))
      else .mk (some ⟨some (el + er), some false⟩) (.Mult l1 r1))) := by
  have hrg := foldU_ok_range hl
  refine ⟨?_, ?_, ?_⟩
  · rw [foldU_fresh hrg]
    by_cases hov : reqBits - 1 < max el er + 1 <;>
      simp [foldInner, Bind.bind, Except.bind, hl, hr, hlm, hrm, unwrapMeta,
        hel, her, hov, propagatedSR]
  · rw [foldU_fresh hrg]
    by_cases hov : reqBits - 1 < max el er + 1 <;>
      simp [foldInner, Bind.bind, Except.bind, hl, hr, hlm, hrm, unwrapMeta,
        hel, her, hov, propagatedSR]
  · rw [foldU_fresh hrg]
    by_cases hov : reqBits - 1 < el + er <;>
      simp [foldInner, Bind.bind, Except.bind, hl, hr, hlm, hrm, unwrapMeta,
        hel, her, hov, propagatedSR]

/-- Witness for C2: two already-annotated `u8` operands of bitwidth 8 under a
254-bit field (the naive bounds fit, so the non-overflow branches apply). -/
theorem C2_overflow_guarding_witness :
    (foldU 254 [] 8 (.mk none (.Add
        (.mk (some ⟨some 8, some false⟩) (.Value 1))
        (.mk (some ⟨some 8, some false⟩) (.Value 2)))) =
      .ok (if max 8 8 + 1 > 254 - 1 then
        .mk (some ⟨some (8 + 1), some false⟩)
          (.Add (.mk (some ⟨some 8, some true⟩) (.Value 1))
                (.mk (some ⟨some 8, some true⟩) (.Value 2)))
      else .mk (some ⟨some (max 8 8 + 1), some false⟩)
        (.Add (.mk (some ⟨some 8, some false⟩) (.Value 1))
              (.mk (some ⟨some 8, some false⟩) (.Value 2))))) ∧
    (foldU 254 [] 8 (.mk none (.Sub
        (.mk (some ⟨some 8, some false⟩) (.Value 1))
        (.mk (some ⟨some 8, some false⟩) (.Value 2)))) =
      .ok (if max 8 8 + 1 > 254 - 1 then
        .mk (some ⟨some (8 + 1), some false⟩)
          (.Sub (.mk (some ⟨some 8, some true⟩) (.Value 1))
                (.mk (some ⟨some 8, some true⟩) (.Value 2)))
      else .mk (some ⟨some (max 8 8 + 1), some false⟩)
        (.Sub (.mk (some ⟨some 8, some false⟩) (.Value 1))
              (.mk (some ⟨some 8, some false⟩) (.Value 2))))) ∧
    (foldU 254 [] 8 (.mk none (.Mult
        (.mk (some ⟨some 8, some false⟩) (.Value 1))
        (.mk (some ⟨some 8, some false⟩) (.Value 2)))) =
      .ok (if 8 + 8 > 254 - 1 then
        .mk (some ⟨some (2 * 8), some false⟩)
          (.Mult (.mk (some ⟨some 8, some true⟩) (.Value 1))
                 (.mk (some ⟨some 8, some true⟩) (.Value 2)))
      else .mk (some ⟨some (8 + 8), some false⟩)
        (.Mult (.mk (some ⟨some 8, some false⟩) (.Value 1))
               (.mk (some ⟨some 8, some false⟩) (.Value 2))))) :=
  C2_overflow_guarding 254 8 []
    (.mk (some ⟨some 8, some false⟩) (.Value 1))
    (.mk (some ⟨some 8, some false⟩) (.Value 2))
    (.mk (some ⟨some 8, some false⟩) (.Value 1))
    (.mk (some ⟨some 8, some false⟩) (.Value 2))
    ⟨some 8, some false⟩ ⟨some 8, some false⟩ 8 8
    rfl rfl rfl rfl rfl rfl

/-- C3: Canonical-operator invariant. For every freshly annotated `Xor`,
`And`, `Or`, `Not`, `LeftShift`, or `RightShift` node, the emitted operands
carry `should_reduce = Some(true)` and the node itself carries
`bitwidth = Some(range)` and `should_reduce = Some(true)`; the shift amount is
passed through `fold_field_expression` (the ordinary field-expression fold)
and, being a `FieldExpr`, carries no uint metadata. -/
theorem C3_canonical_operators (reqBits range : Nat) (env : Env)
    (l r l1 r1 : UExp) (lm rm : UMetadata)
    (hl : foldU reqBits env range l = .ok l1)
    (hr : foldU reqBits env range r = .ok r1)
    (hlm : l1.metadata = some lm) (hrm : r1.metadata = some rm) :
    (foldU reqBits env range (.mk none (.Xor l r)) =
      .ok (.mk (some ⟨some range, some true⟩)
        (.Xor (.mk (some ⟨lm.bitwidth, some true⟩) l1.inner)
              (.mk (some ⟨rm.bitwidth, some true⟩) r1.inner)))) ∧
    (foldU reqBits env range (.mk none (.And l r)) =
      .ok (.mk (some ⟨some range, some true⟩)
        (.And (.mk (some ⟨lm.bitwidth, some true⟩) l1.inner)
              (.mk (some ⟨rm.bitwidth, some true⟩) r1.inner)))) ∧
    (foldU reqBits env range (.mk none (.Or l r)) =
      .ok (.mk (some ⟨some range, some true⟩)
        (.Or (.mk (some ⟨lm.bitwidth, some true⟩) l1.inner)
             (.mk (some ⟨rm.bitwidth, some true⟩) r1.inner)))) ∧
    (foldU reqBits env range (.mk none (.Not l)) =
      .ok (.mk (some ⟨some range, some true⟩)
        (.Not (.mk (some ⟨lm.bitwidth, some true⟩) l1.inner)))) ∧
    (∀ amount, foldU reqBits env range (.mk none (.LeftShift l amount)) =
      .ok (.mk (some ⟨some range, some true⟩)
        (.LeftShift (.mk (some ⟨lm.bitwidth, some true⟩) l1.inner)
          (fold_field_expression amount)))) ∧
    (∀ amount, foldU reqBits env range (.mk none (.RightShift l amount)) =
      .ok (.mk (some ⟨some range, some true⟩)
        (.RightShift (.mk (some ⟨lm.bitwidth, some true⟩) l1.inner)
          (fold_field_expression amount)))) := by
  have hrg := foldU_ok_range hl
  refine ⟨?_, ?_, ?_, ?_, ?_, ?_⟩ <;>
    first
    | (rw [foldU_fresh hrg]
       simp [foldInner, Bind.bind, Except.bind, hl, hr, hlm, hrm, unwrapMeta])
    | (intro amount
       rw [foldU_fresh hrg]
       simp [foldInner, Bind.bind, Except.bind, hl, hlm, unwrapMeta])

/-- Witness for C3 at concrete already-annotated `u8` operands. -/
theorem C3_canonical_operators_witness :
    (foldU 254 [] 8 (.mk none (.Xor
        (.mk (some ⟨some 9, some false⟩) (.Value 1))
        (.mk (some ⟨some 8, some false⟩) (.Value 2)))) =
      .ok (.mk (some ⟨some 8, some true⟩)
        (.Xor (.mk (some ⟨some 9, some true⟩) (.Value 1))
              (.mk (some ⟨some 8, some true⟩) (.Value 2))))) ∧
    (foldU 254 [] 8 (.mk none (.And
        (.mk (some ⟨some 9, some false⟩) (.Value 1))
        (.mk (some ⟨some 8, some false⟩) (.Value 2)))) =
      .ok (.mk (some ⟨some 8, some true⟩)
        (.And (.mk (some ⟨some 9, some true⟩) (.Value 1))
              (.mk (some ⟨some 8, some true⟩) (.Value 2))))) ∧
    (foldU 254 [] 8 (.mk none (.Or
        (.mk (some ⟨some 9, some false⟩) (.Value 1))
        (.mk (some ⟨some 8, some false⟩) (.Value 2)))) =
      .ok (.mk (some ⟨some 8, some true⟩)
        (.Or (.mk (some ⟨some 9, some true⟩) (.Value 1))
             (.mk (some ⟨some 8, some true⟩) (.Value 2))))) ∧
    (foldU 254 [] 8 (.mk none (.Not
        (.mk (some ⟨some 9, some false⟩) (.Value 1)))) =
      .ok (.mk (some ⟨some 8, some true⟩)
        (.Not (.mk (some ⟨some 9, some true⟩) (.Value 1))))) ∧
    (∀ amount, foldU 254 [] 8 (.mk none (.LeftShift
        (.mk (some ⟨some 9, some false⟩) (.Value 1)) amount)) =
      .ok (.mk (some ⟨some 8, some true⟩)
        (.LeftShift (.mk (some ⟨some 9, some true⟩) (.Value 1))
          (fold_field_expression amount)))) ∧
    (∀ amount, foldU 254 [] 8 (.mk none (.RightShift
        (.mk (some ⟨some 9, some false⟩) (.Value 1)) amount)) =
      .ok (.mk (some ⟨some 8, some true⟩)
        (.RightShift (.mk (some ⟨some 9, some true⟩) (.Value 1))
          (fold_field_expression amount)))) :=
  C3_canonical_operators 254 8 []
    (.mk (some ⟨some 9, some false⟩) (.Value 1))
    (.mk (some ⟨some 8, some false⟩) (.Value 2))
    (.mk (some ⟨some 9, some false⟩) (.Value 1))
    (.mk (some ⟨some 8, some false⟩) (.Value 2))
    ⟨some 9, some false⟩ ⟨some 8, some false⟩
    rfl rfl rfl rfl

theorem mapOk {α β : Type} {x : Except Err α} {f : α → β} {v : β} :
    f <$> x = .ok v ↔ ∃ a, x = .ok a ∧ f a = v := by
  cases x <;> simp [Functor.map, Except.map]

theorem envFind_insert_isSome {env : Env} {a k : Variable} {m : UMetadata}
    (h : (envFind env k).isSome = true) :
    (envFind (envInsert env a m) k).isSome = true := by
  by_cases hak : a = k <;> simp [envInsert, envFind, hak, h]

theorem foldU_no_fieldTooSmall (reqBits : Nat) (env : Env) (range : Nat)
    (hr : range < (reqBits - 1) / 2) :
    ∀ e : UExp, foldU reqBits env range e ≠ .error .fieldTooSmall := by
  refine foldU.induct reqBits env range
    (fun e => foldU reqBits env range e ≠ .error .fieldTooSmall)
    (fun md inner => foldInner reqBits env range md inner ≠ .error .fieldTooSmall)
    ?_ ?_ ?_ ?_ ?_ ?_ ?_ ?_ ?_ ?_ ?_ ?_ ?_ ?_ ?_ ?_ ?_
  · intro md inner _ _ hsome
    rcases md with _ | m
    · simp at hsome
    · show foldU reqBits env range (UExp.mk (some m) inner) ≠ Except.error Err.fieldTooSmall
      simp [foldU_short hr]
  · intro md inner _ _ hnone ih
    rcases md with _ | m
    · show foldU reqBits env range (UExp.mk none inner) ≠ Except.error Err.fieldTooSmall
      rw [foldU_fresh hr]
      exact ih
    · simp at hnone
  · intro md inner _ hbad
    exact absurd hr hbad
  · intro md v
    simp [foldInner]
  · intro md id henv
    simp [foldInner, henv]
  · intro md id m henv
    simp [foldInner, henv]
  · intro md l r ih1 ih2 hcon
    simp only [foldInner, bindErr] at hcon
    rcases hcon with h | ⟨l1, hl, h⟩
    · exact ih1 h
    rcases h with h | ⟨r1, hr1, h⟩
    · exact ih2 h
    rcases h with h | ⟨lm, hlm, h⟩
    · exact absurd (unwrapMeta_err h) (by decide)
    rcases h with h | ⟨rm, hrm, h⟩
    · exact absurd (unwrapMeta_err h) (by decide)
    rcases h with h | ⟨el, hel, h⟩
    · exact absurd (effBW_err h) (by decide)
    rcases h with h | ⟨er, her, h⟩
    · exact absurd (effBW_err h) (by decide)
    split at h <;> simp at h
  · intro md l r ih1 ih2 hcon
    simp only [foldInner, bindErr] at hcon
    rcases hcon with h | ⟨l1, hl, h⟩
    · exact ih1 h
    rcases h with h | ⟨r1, hr1, h⟩
    · exact ih2 h
    rcases h with h | ⟨lm, hlm, h⟩
    · exact absurd (unwrapMeta_err h) (by decide)
    rcases h with h | ⟨rm, hrm, h⟩
    · exact absurd (unwrapMeta_err h) (by decide)
    rcases h with h | ⟨el, hel, h⟩
    · exact absurd (effBW_err h) (by decide)
    rcases h with h | ⟨er, her, h⟩
    · exact absurd (effBW_err h) (by decide)
    split at h <;> simp at h
  · intro md l r ih1 ih2 hcon
    simp only [foldInner, bindErr] at hcon
    rcases hcon with h | ⟨l1, hl, h⟩
    · exact ih1 h
    rcases h with h | ⟨r1, hr1, h⟩
    · exact ih2 h
    rcases h with h | ⟨lm, hlm, h⟩
    · exact absurd (unwrapMeta_err h) (by decide)
    rcases h with h | ⟨rm, hrm, h⟩
    · exact absurd (unwrapMeta_err h) (by decide)
    rcases h with h | ⟨el, hel, h⟩
    · exact absurd (effBW_err h) (by decide)
    rcases h with h | ⟨er, her, h⟩
    · exact absurd (effBW_err h) (by decide)
    split at h <;> simp at h
  · intro md l r ih1 ih2 hcon
    simp only [foldInner, bindErr] at hcon
    rcases hcon with h | ⟨l1, hl, h⟩
    · exact ih1 h
    rcases h with h | ⟨r1, hr1, h⟩
    · exact ih2 h
    rcases h with h | ⟨lm, hlm, h⟩
    · exact absurd (unwrapMeta_err h) (by decide)
    rcases h with h | ⟨rm, hrm, h⟩
    · exact absurd (unwrapMeta_err h) (by decide)
    simp at h
  · intro md l r ih1 ih2 hcon
    simp only [foldInner, bindErr] at hcon
    rcases hcon with h | ⟨l1, hl, h⟩
    · exact ih1 h
    rcases h with h | ⟨r1, hr1, h⟩
    · exact ih2 h
    rcases h with h | ⟨lm, hlm, h⟩
    · exact absurd (unwrapMeta_err h) (by decide)
    rcases h with h | ⟨rm, hrm, h⟩
    · exact absurd (unwrapMeta_err h) (by decide)
    simp at h
  · intro md l r ih1 ih2 hcon
    simp only [foldInner, bindErr] at hcon
    rcases hcon with h | ⟨l1, hl, h⟩
    · exact ih1 h
    rcases h with h | ⟨r1, hr1, h⟩
    · exact ih2 h
    rcases h with h | ⟨lm, hlm, h⟩
    · exact absurd (unwrapMeta_err h) (by decide)
    rcases h with h | ⟨rm, hrm, h⟩
    · exact absurd (unwrapMeta_err h) (by decide)
    simp at h
  · intro md e ih hcon
    simp only [foldInner, bindErr] at hcon
    rcases hcon with h | ⟨e1, he1, h⟩
    · exact ih h
    rcases h with h | ⟨em, hem, h⟩
    · exact absurd (unwrapMeta_err h) (by decide)
    simp at h
  · intro md e amount ih hcon
    simp only [foldInner, bindErr] at hcon
    rcases hcon with h | ⟨e1, he1, h⟩
    · exact ih h
    rcases h with h | ⟨em, hem, h⟩
    · exact absurd (unwrapMeta_err h) (by decide)
    simp at h
  · intro md e amount ih hcon
    simp only [foldInner, bindErr] at hcon
    rcases hcon with h | ⟨e1, he1, h⟩
    · exact ih h
    rcases h with h | ⟨em, hem, h⟩
    · exact absurd (unwrapMeta_err h) (by decide)
    simp at h
  · intro md k args
    simp [foldInner]
  · intro md c t f ih1 ih2 hcon
    simp only [foldInner, bindErr] at hcon
    rcases hcon with h | ⟨c1, hc, h⟩
    · exact ih1 h
    rcases h with h | ⟨a1, ha, h⟩
    · exact ih2 h
    rcases h with h | ⟨cm, hcm, h⟩
    · exact absurd (unwrapMeta_err h) (by decide)
    rcases h with h | ⟨am, ham, h⟩
    · exact absurd (unwrapMeta_err h) (by decide)
    rcases h with h | ⟨ec, hec, h⟩
    · exact absurd (effBW_err h) (by decide)
    rcases h with h | ⟨ea, hea, h⟩
    · exact absurd (effBW_err h) (by decide)
    simp at h

/-- C7: Field-too-small fatal check. The precondition
`range < maxBitwidth / 2` (with `maxBitwidth = reqBits - 1`) is checked on
every node before any propagation rule — in particular before the idempotence
short-circuit, so even an already-annotated node aborts when it fails — and a
node satisfying it can never produce the field-too-small abort (recursive
sub-folds share the same static `range`). -/
theorem C7_field_too_small (reqBits range : Nat) (env : Env) (e : UExp) :
    (¬ range < (reqBits - 1) / 2 →
      foldU reqBits env range e = .error .fieldTooSmall) ∧
    (range < (reqBits - 1) / 2 →
      foldU reqBits env range e ≠ .error .fieldTooSmall) := by
  constructor
  · intro hr
    rcases e with ⟨md, inner⟩
    simp [foldU, hr]
  · intro hr
    exact foldU_no_fieldTooSmall reqBits env range hr e

/-- Witness for C7: an 8-bit node under a 9-bit field aborts even though it
already carries metadata; under a 254-bit field the abort cannot happen. -/
theorem C7_field_too_small_witness :
    (foldU 9 [] 8 (.mk (some ⟨some 8, some false⟩) (.Value 1)) =
      .error .fieldTooSmall) ∧
    (foldU 254 [] 8 (.mk none (.Value 1)) ≠ .error .fieldTooSmall) :=
  ⟨(C7_field_too_small 9 8 [] (.mk (some ⟨some 8, some false⟩) (.Value 1))).1
      (by decide),
   (C7_field_too_small 254 8 [] (.mk none (.Value 1))).2 (by decide)⟩

theorem register_mono {env env2 : Env} {a : Variable} {e : ZirExpression}
    (h : register env a e = .ok env2) :
    ∀ k, (envFind env k).isSome = true → (envFind env2 k).isSome = true := by
  intro k hk
  cases e with
  | U8 u =>
    simp [register, bindOk, unwrapMeta_ok] at h
    obtain ⟨m, hm, he⟩ := h
    simp [← he, envFind_insert_isSome hk]
  | U16 u =>
    simp [register, bindOk, unwrapMeta_ok] at h
    obtain ⟨m, hm, he⟩ := h
    simp [← he, envFind_insert_isSome hk]
  | U32 u =>
    simp [register, bindOk, unwrapMeta_ok] at h
    obtain ⟨m, hm, he⟩ := h
    simp [← he, envFind_insert_isSome hk]
  | FieldElement fe =>
    simp [register] at h
    simp [← h, hk]
  | Boolean be =>
    simp [register] at h
    simp [← h, hk]

/-- C8: Identifier resolution and environment lifecycle. Folding a fresh
`Identifier` whose binding (name + declared width) is absent from the
environment is the unresolved-identifier fatal abort; when the binding is
present, the output is the same identifier annotated with exactly the stored
metadata. Environment entries are created only by `Definition` statements
whose folded right-hand side is integer-kind (u8/u16/u32) — `Return` and
other statements, and non-integer definitions, leave the environment
untouched — and no statement ever removes an entry. -/
theorem C8_identifier_resolution (reqBits range : Nat) (env : Env) :
    (∀ id, range < (reqBits - 1) / 2 → envFind env ⟨id, range⟩ = none →
      foldU reqBits env range (.mk none (.Identifier id)) =
        .error .unresolvedIdentifier) ∧
    (∀ id m, range < (reqBits - 1) / 2 → envFind env ⟨id, range⟩ = some m →
      foldU reqBits env range (.mk none (.Identifier id)) =
        .ok (.mk (some m) (.Identifier id))) ∧
    (∀ a u env2 out,
      fold_statement reqBits env (.Definition a (.U8 u)) = .ok (env2, out) →
      ∃ u1 m, foldU reqBits env 8 u = .ok u1 ∧ u1.metadata = some m ∧
        env2 = envInsert env a m) ∧
    (∀ a u env2 out,
      fold_statement reqBits env (.Definition a (.U16 u)) = .ok (env2, out) →
      ∃ u1 m, foldU reqBits env 16 u = .ok u1 ∧ u1.metadata = some m ∧
        env2 = envInsert env a m) ∧
    (∀ a u env2 out,
      fold_statement reqBits env (.Definition a (.U32 u)) = .ok (env2, out) →
      ∃ u1 m, foldU reqBits env 32 u = .ok u1 ∧ u1.metadata = some m ∧
        env2 = envInsert env a m) ∧
    (∀ a fe env2 out,
      fold_statement reqBits env (.Definition a (.FieldElement fe)) = .ok (env2, out) →
      env2 = env) ∧
    (∀ a be env2 out,
      fold_statement reqBits env (.Definition a (.Boolean be)) = .ok (env2, out) →
      env2 = env) ∧
    (∀ es env2 out,
      fold_statement reqBits env (.Return es) = .ok (env2, out) → env2 = env) ∧
    (∀ b env2 out,
      fold_statement reqBits env (.Assertion b) = .ok (env2, out) → env2 = env) ∧
    (∀ s env2 out k, fold_statement reqBits env s = .ok (env2, out) →
      (envFind env k).isSome = true → (envFind env2 k).isSome = true) := by
  refine ⟨?_, ?_, ?_, ?_, ?_, ?_, ?_, ?_, ?_, ?_⟩
  · intro id hr hfind
    rw [foldU_fresh hr]
    simp [foldInner, hfind]
  · intro id m hr hfind
    rw [foldU_fresh hr]
    simp [foldInner, hfind]
  · intro a u env2 out h
    simp only [fold_statement, bindOk] at h
    obtain ⟨e1, he1, env1, hreg, hfin⟩ := h
    simp only [fold_expression, mapOk] at he1
    obtain ⟨u1, hu1, he1⟩ := he1
    subst he1
    simp only [register, bindOk, unwrapMeta_ok] at hreg
    obtain ⟨m, hm, henv1⟩ := hreg
    injection hfin with hp
    injection hp with h1 h2
    injection henv1 with h3
    exact ⟨u1, m, hu1, hm, by rw [← h1, ← h3]⟩
  · intro a u env2 out h
    simp only [fold_statement, bindOk] at h
    obtain ⟨e1, he1, env1, hreg, hfin⟩ := h
    simp only [fold_expression, mapOk] at he1
    obtain ⟨u1, hu1, he1⟩ := he1
    subst he1
    simp only [register, bindOk, unwrapMeta_ok] at hreg
    obtain ⟨m, hm, henv1⟩ := hreg
    injection hfin with hp
    injection hp with h1 h2
    injection henv1 with h3
    exact ⟨u1, m, hu1, hm, by rw [← h1, ← h3]⟩
  · intro a u env2 out h
    simp only [fold_statement, bindOk] at h
    obtain ⟨e1, he1, env1, hreg, hfin⟩ := h
    simp only [fold_expression, mapOk] at he1
    obtain ⟨u1, hu1, he1⟩ := he1
    subst he1
    simp only [register, bindOk, unwrapMeta_ok] at hreg
    obtain ⟨m, hm, henv1⟩ := hreg
    injection hfin with hp
    injection hp with h1 h2
    injection henv1 with h3
    exact ⟨u1, m, hu1, hm, by rw [← h1, ← h3]⟩
  · intro a fe env2 out h
    simp only [fold_statement, bindOk] at h
    obtain ⟨e1, he1, env1, hreg, hfin⟩ := h
    simp only [fold_expression] at he1
    injection he1 with he1
    subst he1
    simp only [register] at hreg
    injection hreg with hreg
    injection hfin with hp
    injection hp with h1 h2
    rw [← h1, ← hreg]
  · intro a be env2 out h
    simp only [fold_statement, bindOk] at h
    obtain ⟨e1, he1, env1, hreg, hfin⟩ := h
    simp only [fold_expression] at he1
    injection he1 with he1
    subst he1
    simp only [register] at hreg
    injection hreg with hreg
    injection hfin with hp
    injection hp with h1 h2
    rw [← h1, ← hreg]
  · intro es env2 out h
    simp only [fold_statement, bindOk] at h
    obtain ⟨es1, hmap, hfin⟩ := h
    injection hfin with hp
    injection hp with h1 h2
    exact h1.symm
  · intro b env2 out h
    simp only [fold_statement] at h
    injection h with hp
    injection hp with h1 h2
    exact h1.symm
  · intro s env2 out k h hk
    cases s with
    | Definition a e =>
      simp only [fold_statement, bindOk] at h
      obtain ⟨e1, he1, env1, hreg, hfin⟩ := h
      injection hfin with hp
      injection hp with h1 h2
      rw [← h1]
      exact register_mono hreg k hk
    | Return es =>
      simp only [fold_statement, bindOk] at h
      obtain ⟨es1, hmap, hfin⟩ := h
      injection hfin with hp
      injection hp with h1 h2
      rw [← h1]
      exact hk
    | Assertion b =>
      simp only [fold_statement] at h
      injection h with hp
      injection hp with h1 h2
      rw [← h1]
      exact hk

/-- Witness for C8: a hit and a miss on a one-entry environment, plus the
environment transitions at a concrete definition and return. -/
theorem C8_identifier_resolution_witness :
    (foldU 254 [⟨⟨"y", 8⟩, ⟨some 9, some false⟩⟩] 8 (.mk none (.Identifier "x")) =
      .error .unresolvedIdentifier) ∧
    (foldU 254 [⟨⟨"y", 8⟩, ⟨some 9, some false⟩⟩] 8 (.mk none (.Identifier "y")) =
      .ok (.mk (some ⟨some 9, some false⟩) (.Identifier "y"))) :=
  ⟨((C8_identifier_resolution 254 8 [⟨⟨"y", 8⟩, ⟨some 9, some false⟩⟩]).1 "x"
      (by decide) (by decide)),
   ((C8_identifier_resolution 254 8 [⟨⟨"y", 8⟩, ⟨some 9, some false⟩⟩]).2.1 "y"
      ⟨some 9, some false⟩ (by decide) (by decide))⟩

/-- Counterexample for C9: an `Add` whose left operand already carries
metadata with `should_reduce` absent. Computing the operand's effective bound
reads the absent flag through `.map(...).unwrap()`, which panics instead of
defaulting to false, so the pass aborts. -/
theorem C9_counterexample :
    foldU 254 [] 8 (.mk none (.Add
      (.mk (some ⟨some 8, none⟩) (.Value 1))
      (.mk (some ⟨some 8, some false⟩) (.Value 2)))) = .error .panicUnwrap := rfl

/-- C9 (amended): an absent `should_reduce` flag is treated as false without
aborting only on the propagation path — when the folded node's own prior
metadata (or its flag) is absent, the output flag becomes `Some(false)`. On
the effective-bound path of `Add`/`Sub`/`Mult`/`IfElse`, by contrast, an
operand whose `should_reduce` flag is absent causes a fatal `unwrap` abort
rather than being defaulted to false. -/
theorem C9_should_reduce_default (reqBits range : Nat) (env : Env) :
    (propagatedSR none = false) ∧
    (∀ b, propagatedSR (some ⟨b, none⟩) = false) ∧
    (∀ v, range < (reqBits - 1) / 2 →
      foldU reqBits env range (.mk none (.Value v)) =
        .ok (.mk (some ⟨some range, some false⟩) (.Value v))) ∧
    (∀ m, m.should_reduce = none → effBW range m = .error .panicUnwrap) ∧
    (∀ li ri lm rm, lm.should_reduce = none → range < (reqBits - 1) / 2 →
      foldU reqBits env range
        (.mk none (.Add (.mk (some lm) li) (.mk (some rm) ri))) =
        .error .panicUnwrap) := by
  refine ⟨rfl, fun b => rfl, ?_, ?_, ?_⟩
  · intro v hr
    rw [foldU_fresh hr]
    simp [foldInner, propagatedSR]
  · intro m hm
    simp [effBW, hm]
  · intro li ri lm rm hsr hr
    rw [foldU_fresh hr]
    simp [foldInner, Bind.bind, Except.bind, foldU_short hr, unwrapMeta,
      UExp.metadata, effBW, hsr]

/-- Witness for C9 (amended) at concrete inputs. -/
theorem C9_should_reduce_default_witness :
    (propagatedSR none = false) ∧
    (propagatedSR (some ⟨some 8, none⟩) = false) ∧
    (foldU 254 [] 8 (.mk none (.Value 5)) =
      .ok (.mk (some ⟨some 8, some false⟩) (.Value 5))) ∧
    (effBW 8 ⟨some 8, none⟩ = .error .panicUnwrap) ∧
    (foldU 254 [] 8 (.mk none (.Add
        (.mk (some ⟨some 8, none⟩) (.Value 1))
        (.mk (some ⟨some 8, some false⟩) (.Value 2)))) = .error .panicUnwrap) :=
  ⟨(C9_should_reduce_default 254 8 []).1,
   (C9_should_reduce_default 254 8 []).2.1 (some 8),
   (C9_should_reduce_default 254 8 []).2.2.1 5 (by decide),
   (C9_should_reduce_default 254 8 []).2.2.2.1 ⟨some 8, none⟩ rfl,
   (C9_should_reduce_default 254 8 []).2.2.2.2 (.Value 1) (.Value 2)
     ⟨some 8, none⟩ ⟨some 8, some false⟩ rfl (by decide)⟩

/-- C10: Frame property of `IfElse`. When the pass folds a fresh `IfElse`
node, the condition sub-expression is placed in the rewritten node exactly as
received — it is never folded or rewritten — while the consequence and
alternative are folded recursively. -/
theorem C10_condition_frame (reqBits range : Nat) (env : Env)
    (cond : BoolExpr) (t f out : UExp)
    (h : foldU reqBits env range (.mk none (.IfElse cond t f)) = .ok out) :
    ∃ t1 f1, foldU reqBits env range t = .ok t1 ∧
      foldU reqBits env range f = .ok f1 ∧
      out.inner = .IfElse cond t1 f1 := by
  have hrg := foldU_ok_range h
  rw [foldU_fresh hrg] at h
  simp [foldInner, bindOk, unwrapMeta_ok] at h
  obtain ⟨c1, hc, a1, ha, cm, hcm, am, ham, ec, hec, ea, hea, hfin⟩ := h
  exact ⟨c1, a1, hc, ha, by simp [← hfin, UExp.inner]⟩

/-- Witness for C10 at a concrete conditional over fresh values. -/
theorem C10_condition_frame_witness :
    ∃ t1 f1, foldU 254 [] 8 (.mk none (.Value 1)) = .ok t1 ∧
      foldU 254 [] 8 (.mk none (.Value 2)) = .ok f1 ∧
      (UExp.mk (some ⟨some 8, some false⟩) (.IfElse (.BoolIdentifier "c")
        (.mk (some ⟨some 8, some false⟩) (.Value 1))
        (.mk (some ⟨some 8, some false⟩) (.Value 2)))).inner =
        .IfElse (.BoolIdentifier "c") t1 f1 :=
  C10_condition_frame 254 8 [] (.BoolIdentifier "c")
    (.mk none (.Value 1)) (.mk none (.Value 2)) _ rfl

/-- C6: Return-boundary invariant. A folded `Return` statement maps
`foldReturnExpr` over its expressions without touching the environment; on an
integer-kind (u8/u16/u32) expression, `foldReturnExpr` folds it via the
recursive rule and then re-marks the result `should_reduce = Some(true)`,
keeping the bitwidth the recursive rule computed; on non-integer kinds it is
exactly the generic `fold_expression`. -/
theorem C6_return_boundary (reqBits : Nat) (env : Env) :
    (∀ es env2 out, fold_statement reqBits env (.Return es) = .ok (env2, out) →
      ∃ es1, es.mapM (foldReturnExpr reqBits env) = .ok es1 ∧
        env2 = env ∧ out = [.Return es1]) ∧
    (∀ u u1 m, foldU reqBits env 8 u = .ok u1 → u1.metadata = some m →
      foldReturnExpr reqBits env (.U8 u) =
        .ok (.U8 (.mk (some ⟨m.bitwidth, some true⟩) u1.inner))) ∧
    (∀ u u1 m, foldU reqBits env 16 u = .ok u1 → u1.metadata = some m →
      foldReturnExpr reqBits env (.U16 u) =
        .ok (.U16 (.mk (some ⟨m.bitwidth, some true⟩) u1.inner))) ∧
    (∀ u u1 m, foldU reqBits env 32 u = .ok u1 → u1.metadata = some m →
      foldReturnExpr reqBits env (.U32 u) =
        .ok (.U32 (.mk (some ⟨m.bitwidth, some true⟩) u1.inner))) ∧
    (∀ fe, foldReturnExpr reqBits env (.FieldElement fe) =
      fold_expression reqBits env (.FieldElement fe)) ∧
    (∀ be, foldReturnExpr reqBits env (.Boolean be) =
      fold_expression reqBits env (.Boolean be)) := by
  refine ⟨?_, ?_, ?_, ?_, fun fe => rfl, fun be => rfl⟩
  · intro es env2 out h
    simp only [fold_statement, bindOk] at h
    obtain ⟨es1, hmap, hfin⟩ := h
    injection hfin with hp
    injection hp with h1 h2
    exact ⟨es1, hmap, h1.symm, h2.symm⟩
  · intro u u1 m hu hm
    simp [foldReturnExpr, Bind.bind, Except.bind, hu, hm, unwrapMeta]
  · intro u u1 m hu hm
    simp [foldReturnExpr, Bind.bind, Except.bind, hu, hm, unwrapMeta]
  · intro u u1 m hu hm
    simp [foldReturnExpr, Bind.bind, Except.bind, hu, hm, unwrapMeta]

/-- Witness for C6: a concrete `Return` of a u8 sum whose recursive fold
yields `should_reduce = Some(false)`; the emitted expression is re-marked
`Some(true)` with the recursively computed bitwidth 9 kept. -/
theorem C6_return_boundary_witness :
    ∃ es1, [ZirExpression.U8 (.mk none (.Add (.mk none (.Value 1))
        (.mk none (.Value 2))))].mapM (foldReturnExpr 254 []) = .ok es1 ∧
      ([] : Env) = [] ∧
      [ZirStatement.Return [ZirExpression.U8 (.mk (some ⟨some 9, some true⟩)
        (.Add (.mk (some ⟨some 8, some false⟩) (.Value 1))
              (.mk (some ⟨some 8, some false⟩) (.Value 2))))]] = [.Return es1] :=
  (C6_return_boundary 254 []).1
    [ZirExpression.U8 (.mk none (.Add (.mk none (.Value 1)) (.mk none (.Value 2))))]
    [] _ rfl

theorem resolved_remeta {md : UMetadata} {i : UInner}
    (h : UExp.resolved (.mk (some md) i) = true) :
    UExp.resolved (.mk (some ⟨md.bitwidth, some true⟩) i) = true := by
  simp [UExp.resolved, Bool.and_eq_true] at h ⊢
  exact ⟨h.1.1, h.2⟩

theorem resolved_of_meta {md : UMetadata} {i : UInner}
    (h : UExp.resolved (.mk (some md) i) = true) :
    md.bitwidth.isSome = true ∧ md.should_reduce.isSome = true ∧
      UInner.childrenResolved i = true := by
  simp [UExp.resolved, Bool.and_eq_true] at h
  exact ⟨h.1.1, h.1.2, h.2⟩

theorem foldU_fresh_resolved (reqBits : Nat) (env : Env) (range : Nat)
    (henv : envResolved env) :
    ∀ e : UExp, ∀ u, UExp.fresh e = true → foldU reqBits env range e = .ok u →
      u.resolved = true := by
  refine foldU.induct reqBits env range
    (fun e => ∀ u, UExp.fresh e = true → foldU reqBits env range e = .ok u →
      u.resolved = true)
    (fun md inner => ∀ u, UInner.childrenFresh inner = true →
      foldInner reqBits env range md inner = .ok u → u.resolved = true)
    ?_ ?_ ?_ ?_ ?_ ?_ ?_ ?_ ?_ ?_ ?_ ?_ ?_ ?_ ?_ ?_ ?_
  · intro md inner _ _ hsome u hf h
    rcases md with _ | m
    · simp at hsome
    · simp [UExp.fresh] at hf
  · intro md inner _ hlt hnone ih u hf h
    rcases md with _ | m
    · rw [foldU_fresh hlt] at h
      exact ih u (by simpa [UExp.fresh] using hf) h
    · simp at hnone
  · intro md inner _ hbad u hf h
    rw [show foldU reqBits env range (UExp.mk md inner) =
      Except.error Err.fieldTooSmall by simp [foldU, hbad]] at h
    cases h
  · intro md v u hf h
    simp [foldInner] at h
    simp [← h, UExp.resolved, UInner.childrenResolved]
  · intro md id hmiss u hf h
    simp [foldInner, hmiss] at h
  · intro md id m hhit u hf h
    simp [foldInner, hhit] at h
    have := henv ⟨id, range⟩ m hhit
    simp [← h, UExp.resolved, UInner.childrenResolved, this.1, this.2]
  · intro md l r ih1 ih2 u hf h
    simp [UInner.childrenFresh, Bool.and_eq_true] at hf
    simp only [foldInner, bindOk, unwrapMeta_ok] at h
    obtain ⟨l1, hl, r1, hr1, lm, hlm, rm, hrm, el, hel, er, her, hif⟩ := h
    have hl1 := ih1 l1 hf.1 hl
    have hr2 := ih2 r1 hf.2 hr1
    rcases l1 with ⟨lmd, li⟩
    rcases r1 with ⟨rmd, ri⟩
    simp [UExp.metadata] at hlm hrm
    subst hlm hrm
    obtain ⟨hlb, hls, hlc⟩ := resolved_of_meta hl1
    obtain ⟨hrb, hrs, hrc⟩ := resolved_of_meta hr2
    split at hif <;> injection hif with he <;>
      simp [← he, UExp.resolved, Bool.and_eq_true, UInner.childrenResolved,
        UExp.inner, hlb, hls, hlc, hrb, hrs, hrc]
  · intro md l r ih1 ih2 u hf h
    simp [UInner.childrenFresh, Bool.and_eq_true] at hf
    simp only [foldInner, bindOk, unwrapMeta_ok] at h
    obtain ⟨l1, hl, r1, hr1, lm, hlm, rm, hrm, el, hel, er, her, hif⟩ := h
    have hl1 := ih1 l1 hf.1 hl
    have hr2 := ih2 r1 hf.2 hr1
    rcases l1 with ⟨lmd, li⟩
    rcases r1 with ⟨rmd, ri⟩
    simp [UExp.metadata] at hlm hrm
    subst hlm hrm
    obtain ⟨hlb, hls, hlc⟩ := resolved_of_meta hl1
    obtain ⟨hrb, hrs, hrc⟩ := resolved_of_meta hr2
    split at hif <;> injection hif with he <;>
      simp [← he, UExp.resolved, Bool.and_eq_true, UInner.childrenResolved,
        UExp.inner, hlb, hls, hlc, hrb, hrs, hrc]
  · intro md l r ih1 ih2 u hf h
    simp [UInner.childrenFresh, Bool.and_eq_true] at hf
    simp only [foldInner, bindOk, unwrapMeta_ok] at h
    obtain ⟨l1, hl, r1, hr1, lm, hlm, rm, hrm, el, hel, er, her, hif⟩ := h
    have hl1 := ih1 l1 hf.1 hl
    have hr2 := ih2 r1 hf.2 hr1
    rcases l1 with ⟨lmd, li⟩
    rcases r1 with ⟨rmd, ri⟩
    simp [UExp.metadata] at hlm hrm
    subst hlm hrm
    obtain ⟨hlb, hls, hlc⟩ := resolved_of_meta hl1
    obtain ⟨hrb, hrs, hrc⟩ := resolved_of_meta hr2
    split at hif <;> injection hif with he <;>
      simp [← he, UExp.resolved, Bool.and_eq_true, UInner.childrenResolved,
        UExp.inner, hlb, hls, hlc, hrb, hrs, hrc]
  · intro md l r ih1 ih2 u hf h
    simp [UInner.childrenFresh, Bool.and_eq_true] at hf
    simp only [foldInner, bindOk, unwrapMeta_ok] at h
    obtain ⟨l1, hl, r1, hr1, lm, hlm, rm, hrm, hfin⟩ := h
    have hl1 := ih1 l1 hf.1 hl
    have hr2 := ih2 r1 hf.2 hr1
    rcases l1 with ⟨lmd, li⟩
    rcases r1 with ⟨rmd, ri⟩
    simp [UExp.metadata] at hlm hrm
    subst hlm hrm
    obtain ⟨hlb, hls, hlc⟩ := resolved_of_meta hl1
    obtain ⟨hrb, hrs, hrc⟩ := resolved_of_meta hr2
    injection hfin with he
    simp [← he, UExp.resolved, Bool.and_eq_true, UInner.childrenResolved,
      UExp.inner, hlb, hls, hlc, hrb, hrs, hrc]
  · intro md l r ih1 ih2 u hf h
    simp [UInner.childrenFresh, Bool.and_eq_true] at hf
    simp only [foldInner, bindOk, unwrapMeta_ok] at h
    obtain ⟨l1, hl, r1, hr1, lm, hlm, rm, hrm, hfin⟩ := h
    have hl1 := ih1 l1 hf.1 hl
    have hr2 := ih2 r1 hf.2 hr1
    rcases l1 with ⟨lmd, li⟩
    rcases r1 with ⟨rmd, ri⟩
    simp [UExp.metadata] at hlm hrm
    subst hlm hrm
    obtain ⟨hlb, hls, hlc⟩ := resolved_of_meta hl1
    obtain ⟨hrb, hrs, hrc⟩ := resolved_of_meta hr2
    injection hfin with he
    simp [← he, UExp.resolved, Bool.and_eq_true, UInner.childrenResolved,
      UExp.inner, hlb, hls, hlc, hrb, hrs, hrc]
  · intro md l r ih1 ih2 u hf h
    simp [UInner.childrenFresh, Bool.and_eq_true] at hf
    simp only [foldInner, bindOk, unwrapMeta_ok] at h
    obtain ⟨l1, hl, r1, hr1, lm, hlm, rm, hrm, hfin⟩ := h
    have hl1 := ih1 l1 hf.1 hl
    have hr2 := ih2 r1 hf.2 hr1
    rcases l1 with ⟨lmd, li⟩
    rcases r1 with ⟨rmd, ri⟩
    simp [UExp.metadata] at hlm hrm
    subst hlm hrm
    obtain ⟨hlb, hls, hlc⟩ := resolved_of_meta hl1
    obtain ⟨hrb, hrs, hrc⟩ := resolved_of_meta hr2
    injection hfin with he
    simp [← he, UExp.resolved, Bool.and_eq_true, UInner.childrenResolved,
      UExp.inner, hlb, hls, hlc, hrb, hrs, hrc]
  · intro md e ih u hf h
    simp [UInner.childrenFresh] at hf
    simp only [foldInner, bindOk, unwrapMeta_ok] at h
    obtain ⟨e1, he1, em, hem, hfin⟩ := h
    have he2 := ih e1 hf he1
    rcases e1 with ⟨emd, ei⟩
    simp [UExp.metadata] at hem
    subst hem
    obtain ⟨heb, hes, hec⟩ := resolved_of_meta he2
    injection hfin with he
    simp [← he, UExp.resolved, Bool.and_eq_true, UInner.childrenResolved,
      UExp.inner, heb, hes, hec]
  · intro md e amount ih u hf h
    simp [UInner.childrenFresh] at hf
    simp only [foldInner, bindOk, unwrapMeta_ok] at h
    obtain ⟨e1, he1, em, hem, hfin⟩ := h
    have he2 := ih e1 hf he1
    rcases e1 with ⟨emd, ei⟩
    simp [UExp.metadata] at hem
    subst hem
    obtain ⟨heb, hes, hec⟩ := resolved_of_meta he2
    injection hfin with he
    simp [← he, UExp.resolved, Bool.and_eq_true, UInner.childrenResolved,
      UExp.inner, heb, hes, hec]
  · intro md e amount ih u hf h
    simp [UInner.childrenFresh] at hf
    simp only [foldInner, bindOk, unwrapMeta_ok] at h
    obtain ⟨e1, he1, em, hem, hfin⟩ := h
    have he2 := ih e1 hf he1
    rcases e1 with ⟨emd, ei⟩
    simp [UExp.metadata] at hem
    subst hem
    obtain ⟨heb, hes, hec⟩ := resolved_of_meta he2
    injection hfin with he
    simp [← he, UExp.resolved, Bool.and_eq_true, UInner.childrenResolved,
      UExp.inner, heb, hes, hec]
  · intro md k args u hf h
    simp [foldInner] at h
  · intro md c t f ih1 ih2 u hf h
    simp [UInner.childrenFresh, Bool.and_eq_true] at hf
    simp only [foldInner, bindOk, unwrapMeta_ok] at h
    obtain ⟨c1, hc, a1, ha, cm, hcm, am, ham, ec, hec, ea, hea, hfin⟩ := h
    have hc1 := ih1 c1 hf.1 hc
    have ha1 := ih2 a1 hf.2 ha
    rcases c1 with ⟨cmd, ci⟩
    rcases a1 with ⟨amd, ai⟩
    simp [UExp.metadata] at hcm ham
    subst hcm ham
    obtain ⟨hcb, hcs, hcc⟩ := resolved_of_meta hc1
    obtain ⟨hab, has, hac⟩ := resolved_of_meta ha1
    injection hfin with he
    simp [← he, UExp.resolved, Bool.and_eq_true, UInner.childrenResolved,
      hcb, hcs, hcc, hab, has, hac]

theorem mapM_nil_ok {α β : Type} {f : α → Except Err β} {v : List β} :
    (([] : List α).mapM f = Except.ok v) ↔ v = [] := by
  constructor
  · intro h
    have h2 : (Except.ok [] : Except Err (List β)) = Except.ok v := h
    injection h2 with he
    exact he.symm
  · intro h
    subst h
    rfl

theorem mapM_cons_ok {α β : Type} {f : α → Except Err β} {a : α} {as : List α}
    {v : List β} :
    ((a :: as).mapM f = Except.ok v) ↔
      ∃ b bs, f a = .ok b ∧ as.mapM f = .ok bs ∧ v = b :: bs := by
  rw [List.mapM_cons]
  simp only [bindOk]
  constructor
  · rintro ⟨b, hb, bs, hbs, hfin⟩
    simp only [pure, Except.pure] at hfin
    injection hfin with he
    exact ⟨b, bs, hb, hbs, he.symm⟩
  · rintro ⟨b, bs, hb, hbs, hfin⟩
    refine ⟨b, hb, bs, hbs, ?_⟩
    simp [pure, Except.pure, hfin]

theorem fold_expression_fresh_resolved {reqBits : Nat} {env : Env}
    {e e1 : ZirExpression} (henv : envResolved env)
    (hf : e.fresh = true) (h : fold_expression reqBits env e = .ok e1) :
    e1.resolved = true := by
  cases e with
  | U8 u =>
    simp only [fold_expression, mapOk] at h
    obtain ⟨u1, hu1, he1⟩ := h
    subst he1
    exact foldU_fresh_resolved _ _ _ henv u u1 (by simpa [ZirExpression.fresh] using hf) hu1
  | U16 u =>
    simp only [fold_expression, mapOk] at h
    obtain ⟨u1, hu1, he1⟩ := h
    subst he1
    exact foldU_fresh_resolved _ _ _ henv u u1 (by simpa [ZirExpression.fresh] using hf) hu1
  | U32 u =>
    simp only [fold_expression, mapOk] at h
    obtain ⟨u1, hu1, he1⟩ := h
    subst he1
    exact foldU_fresh_resolved _ _ _ henv u u1 (by simpa [ZirExpression.fresh] using hf) hu1
  | FieldElement fe =>
    simp only [fold_expression] at h
    injection h with he
    simp [← he, ZirExpression.resolved]
  | Boolean be =>
    simp only [fold_expression] at h
    injection h with he
    simp [← he, ZirExpression.resolved]

theorem register_envResolved {env env2 : Env} {a : Variable} {e : ZirExpression}
    (henv : envResolved env) (her : e.resolved = true)
    (h : register env a e = .ok env2) : envResolved env2 := by
  cases e with
  | U8 u =>
    simp only [register, bindOk, unwrapMeta_ok] at h
    obtain ⟨m, hm, he⟩ := h
    injection he with he
    rcases u with ⟨umd, ui⟩
    simp [UExp.metadata] at hm
    subst hm
    obtain ⟨hb, hs, _⟩ := resolved_of_meta her
    intro k m2 hfind
    rw [← he] at hfind
    simp only [envInsert, envFind] at hfind
    by_cases hak : a = k
    · simp [hak] at hfind
      subst hfind
      exact ⟨hb, hs⟩
    · simp [hak] at hfind
      exact henv k m2 hfind
  | U16 u =>
    simp only [register, bindOk, unwrapMeta_ok] at h
    obtain ⟨m, hm, he⟩ := h
    injection he with he
    rcases u with ⟨umd, ui⟩
    simp [UExp.metadata] at hm
    subst hm
    obtain ⟨hb, hs, _⟩ := resolved_of_meta her
    intro k m2 hfind
    rw [← he] at hfind
    simp only [envInsert, envFind] at hfind
    by_cases hak : a = k
    · simp [hak] at hfind
      subst hfind
      exact ⟨hb, hs⟩
    · simp [hak] at hfind
      exact henv k m2 hfind
  | U32 u =>
    simp only [register, bindOk, unwrapMeta_ok] at h
    obtain ⟨m, hm, he⟩ := h
    injection he with he
    rcases u with ⟨umd, ui⟩
    simp [UExp.metadata] at hm
    subst hm
    obtain ⟨hb, hs, _⟩ := resolved_of_meta her
    intro k m2 hfind
    rw [← he] at hfind
    simp only [envInsert, envFind] at hfind
    by_cases hak : a = k
    · simp [hak] at hfind
      subst hfind
      exact ⟨hb, hs⟩
    · simp [hak] at hfind
      exact henv k m2 hfind
  | FieldElement fe =>
    simp only [register] at h
    injection h with he
    rw [← he]
    exact henv
  | Boolean be =>
    simp only [register] at h
    injection h with he
    rw [← he]
    exact henv

theorem foldReturnExpr_fresh_resolved {reqBits : Nat} {env : Env}
    {e e1 : ZirExpression} (henv : envResolved env)
    (hf : e.fresh = true) (h : foldReturnExpr reqBits env e = .ok e1) :
    e1.resolved = true := by
  cases e with
  | U8 u =>
    simp only [foldReturnExpr, bindOk, unwrapMeta_ok] at h
    obtain ⟨u1, hu1, m, hm, hfin⟩ := h
    injection hfin with he
    have hres := foldU_fresh_resolved _ _ _ henv u u1
      (by simpa [ZirExpression.fresh] using hf) hu1
    rcases u1 with ⟨umd, ui⟩
    simp [UExp.metadata] at hm
    subst hm
    obtain ⟨hb, hs, hc⟩ := resolved_of_meta hres
    simp [← he, ZirExpression.resolved, UExp.resolved, UExp.inner,
      Bool.and_eq_true, hb, hc]
  | U16 u =>
    simp only [foldReturnExpr, bindOk, unwrapMeta_ok] at h
    obtain ⟨u1, hu1, m, hm, hfin⟩ := h
    injection hfin with he
    have hres := foldU_fresh_resolved _ _ _ henv u u1
      (by simpa [ZirExpression.fresh] using hf) hu1
    rcases u1 with ⟨umd, ui⟩
    simp [UExp.metadata] at hm
    subst hm
    obtain ⟨hb, hs, hc⟩ := resolved_of_meta hres
    simp [← he, ZirExpression.resolved, UExp.resolved, UExp.inner,
      Bool.and_eq_true, hb, hc]
  | U32 u =>
    simp only [foldReturnExpr, bindOk, unwrapMeta_ok] at h
    obtain ⟨u1, hu1, m, hm, hfin⟩ := h
    injection hfin with he
    have hres := foldU_fresh_resolved _ _ _ henv u u1
      (by simpa [ZirExpression.fresh] using hf) hu1
    rcases u1 with ⟨umd, ui⟩
    simp [UExp.metadata] at hm
    subst hm
    obtain ⟨hb, hs, hc⟩ := resolved_of_meta hres
    simp [← he, ZirExpression.resolved, UExp.resolved, UExp.inner,
      Bool.and_eq_true, hb, hc]
  | FieldElement fe =>
    simp only [foldReturnExpr, fold_expression] at h
    injection h with he
    simp [← he, ZirExpression.resolved]
  | Boolean be =>
    simp only [foldReturnExpr, fold_expression] at h
    injection h with he
    simp [← he, ZirExpression.resolved]

theorem mapM_foldReturn_resolved {reqBits : Nat} {env : Env}
    (henv : envResolved env) :
    ∀ (es es1 : List ZirExpression), (∀ e ∈ es, ZirExpression.fresh e = true) →
      es.mapM (foldReturnExpr reqBits env) = .ok es1 →
      ∀ e ∈ es1, ZirExpression.resolved e = true := by
  intro es
  induction es with
  | nil =>
    intro es1 _ h
    rw [mapM_nil_ok] at h
    subst h
    simp
  | cons a as ih =>
    intro es1 hf h
    rw [mapM_cons_ok] at h
    obtain ⟨b, bs, hb, hbs, hfin⟩ := h
    subst hfin
    intro e he
    rcases List.mem_cons.mp he with he | he
    · subst he
      exact foldReturnExpr_fresh_resolved henv (hf a (by simp)) hb
    · exact ih bs (fun x hx => hf x (by simp [hx])) hbs e he

theorem fold_statement_fresh_resolved {reqBits : Nat} {env env2 : Env}
    {s : ZirStatement} {out : List ZirStatement}
    (henv : envResolved env) (hf : s.fresh = true)
    (h : fold_statement reqBits env s = .ok (env2, out)) :
    envResolved env2 ∧ ∀ s1 ∈ out, s1.resolved = true := by
  cases s with
  | Definition a e =>
    simp only [fold_statement, bindOk] at h
    obtain ⟨e1, he1, env1, hreg, hfin⟩ := h
    injection hfin with hp
    injection hp with h1 h2
    have her := fold_expression_fresh_resolved henv
      (by simpa [ZirStatement.fresh] using hf) he1
    refine ⟨by rw [← h1]; exact register_envResolved henv her hreg, ?_⟩
    intro s1 hs1
    rw [← h2] at hs1
    simp at hs1
    simp [hs1, ZirStatement.resolved, her]
  | Return es =>
    simp only [fold_statement, bindOk] at h
    obtain ⟨es1, hmap, hfin⟩ := h
    injection hfin with hp
    injection hp with h1 h2
    refine ⟨by rw [← h1]; exact henv, ?_⟩
    intro s1 hs1
    rw [← h2] at hs1
    simp at hs1
    subst hs1
    simp only [ZirStatement.resolved, List.all_eq_true]
    have hffr : ∀ e ∈ es, ZirExpression.fresh e = true := by
      have := hf
      simp only [ZirStatement.fresh, List.all_eq_true] at this
      exact this
    exact mapM_foldReturn_resolved henv es es1 hffr hmap
  | Assertion b =>
    simp only [fold_statement] at h
    injection h with hp
    injection hp with h1 h2
    refine ⟨by rw [← h1]; exact henv, ?_⟩
    intro s1 hs1
    rw [← h2] at hs1
    simp at hs1
    simp [hs1, ZirStatement.resolved]

theorem foldStatements_fresh_resolved {reqBits : Nat} :
    ∀ (ss : List ZirStatement) (env env2 : Env) (out : List ZirStatement),
      envResolved env → (∀ s ∈ ss, ZirStatement.fresh s = true) →
      foldStatements reqBits env ss = .ok (env2, out) →
      envResolved env2 ∧ ∀ s1 ∈ out, s1.resolved = true := by
  intro ss
  induction ss with
  | nil =>
    intro env env2 out henv _ h
    simp only [foldStatements] at h
    injection h with hp
    injection hp with h1 h2
    refine ⟨by rw [← h1]; exact henv, ?_⟩
    intro s1 hs1
    rw [← h2] at hs1
    simp at hs1
  | cons s rest ih =>
    intro env env2 out henv hf h
    simp only [foldStatements, bindOk] at h
    obtain ⟨p1, hp1, p2, hp2, hfin⟩ := h
    rcases p1 with ⟨env1, out0⟩
    rcases p2 with ⟨env3, outRest⟩
    injection hfin with hp
    injection hp with h1 h2
    have hs := fold_statement_fresh_resolved henv (hf s (by simp)) hp1
    have hr := ih env1 env3 outRest hs.1 (fun x hx => hf x (by simp [hx])) hp2
    refine ⟨by rw [← h1]; exact hr.1, ?_⟩
    intro s1 hs1
    rw [← h2] at hs1
    rcases List.mem_append.mp hs1 with hmem | hmem
    · exact hs.2 s1 hmem
    · exact hr.2 s1 hmem

theorem foldFunctions_fresh_resolved {reqBits : Nat} :
    ∀ (fs : List ZirFunction) (env env2 : Env) (fs1 : List ZirFunction),
      envResolved env →
      (∀ f ∈ fs, ∀ s ∈ f.statements, ZirStatement.fresh s = true) →
      foldFunctions reqBits env fs = .ok (env2, fs1) →
      ∀ f ∈ fs1, ∀ s ∈ f.statements, ZirStatement.resolved s = true := by
  intro fs
  induction fs with
  | nil =>
    intro env env2 fs1 henv _ h
    simp only [foldFunctions] at h
    injection h with hp
    injection hp with h1 h2
    intro f hfm
    rw [← h2] at hfm
    simp at hfm
  | cons f rest ih =>
    intro env env2 fs1 henv hf h
    simp only [foldFunctions, bindOk] at h
    obtain ⟨p1, hp1, p2, hp2, hfin⟩ := h
    rcases p1 with ⟨env1, sts⟩
    rcases p2 with ⟨env3, outRest⟩
    injection hfin with hp
    injection hp with h1 h2
    have hs := foldStatements_fresh_resolved f.statements env env1 sts henv
      (hf f (by simp)) hp1
    have hr := ih env1 env3 outRest hs.1 (fun x hx => hf x (by simp [hx])) hp2
    intro g hgm
    rw [← h2] at hgm
    rcases List.mem_cons.mp hgm with hmem | hmem
    · subst hmem
      exact hs.2
    · exact hr g hmem

/-- Counterexample for C4: the idempotence short-circuit returns an
already-annotated root node untouched, so its metadata-free children leave
the pass with both fields absent. `progC4` is such a program and the pass
returns it unchanged, not fully resolved. -/
theorem C4_counterexample :
    optimize 254 progC4 = .ok progC4 ∧ progC4.resolved = false :=
  ⟨rfl, rfl⟩

/-- C4 (amended): Output totality holds for metadata-free inputs. For every
input program none of whose integer-kind expression nodes carries metadata,
every integer-kind expression node of the output (sub-expressions included)
carries metadata with both `bitwidth` and `should_reduce` present. (An input
node that already carries root metadata is returned by the idempotence
short-circuit with its children untouched, so metadata-free children below it
survive — see the counterexample.) -/
theorem C4_output_totality (reqBits : Nat) (p q : ZirProgram)
    (hf : p.fresh = true) (h : optimize reqBits p = .ok q) :
    q.resolved = true := by
  simp only [optimize, bindOk] at h
  obtain ⟨p1, hp1, hfin⟩ := h
  rcases p1 with ⟨env1, fs⟩
  injection hfin with he
  have henv0 : envResolved ([] : Env) := by
    intro k m hfind
    simp [envFind] at hfind
  have hff : ∀ f ∈ p.functions, ∀ s ∈ f.statements, ZirStatement.fresh s = true := by
    simp only [ZirProgram.fresh, List.all_eq_true] at hf
    intro f hfm s hsm
    have h2 := hf f hfm
    simp only [List.all_eq_true] at h2
    exact h2 s hsm
  have hres := foldFunctions_fresh_resolved p.functions [] env1 fs henv0 hff hp1
  rw [← he]
  simp only [ZirProgram.resolved, List.all_eq_true]
  intro f hfm
  exact hres f hfm

/-- Witness for C4 (amended): a concrete metadata-free program whose
optimized form is fully resolved. -/
theorem C4_output_totality_witness :
    ZirProgram.resolved
      ⟨[⟨[.Definition ⟨"a", 8⟩ (.U8 (.mk (some ⟨some 8, some false⟩) (.Value 3))),
          .Return [.U8 (.mk (some ⟨some 8, some true⟩) (.Identifier "a"))]]⟩]⟩ = true :=
  C4_output_totality 254
    ⟨[⟨[.Definition ⟨"a", 8⟩ (.U8 (.mk none (.Value 3))),
        .Return [.U8 (.mk none (.Identifier "a"))]]⟩]⟩
    ⟨[⟨[.Definition ⟨"a", 8⟩ (.U8 (.mk (some ⟨some 8, some false⟩) (.Value 3))),
        .Return [.U8 (.mk (some ⟨some 8, some true⟩) (.Identifier "a"))]]⟩]⟩
    (by decide) rfl

theorem fold_expression_refold {reqBits : Nat} {env : Env} {e e1 : ZirExpression}
    (h : fold_expression reqBits env e = .ok e1) :
    ∀ env2, fold_expression reqBits env2 e1 = .ok e1 := by
  intro env2
  cases e with
  | U8 u =>
    simp only [fold_expression, mapOk] at h
    obtain ⟨u1, hu1, he1⟩ := h
    subst he1
    simp only [fold_expression, mapOk]
    exact ⟨u1, foldU_refold hu1 env2, rfl⟩
  | U16 u =>
    simp only [fold_expression, mapOk] at h
    obtain ⟨u1, hu1, he1⟩ := h
    subst he1
    simp only [fold_expression, mapOk]
    exact ⟨u1, foldU_refold hu1 env2, rfl⟩
  | U32 u =>
    simp only [fold_expression, mapOk] at h
    obtain ⟨u1, hu1, he1⟩ := h
    subst he1
    simp only [fold_expression, mapOk]
    exact ⟨u1, foldU_refold hu1 env2, rfl⟩
  | FieldElement fe =>
    simp only [fold_expression] at h ⊢
    injection h with he
    rw [← he]
    rfl
  | Boolean be =>
    simp only [fold_expression] at h ⊢
    injection h with he
    rw [← he]
    rfl

theorem register_of_fold {reqBits : Nat} {env : Env} {e e1 : ZirExpression}
    (h : fold_expression reqBits env e = .ok e1) :
    ∀ env3 a, ∃ env4, register env3 a e1 = .ok env4 := by
  intro env3 a
  cases e with
  | U8 u =>
    simp only [fold_expression, mapOk] at h
    obtain ⟨u1, hu1, he1⟩ := h
    subst he1
    have hs := foldU_ok_isSome hu1
    rcases hmu : u1.metadata with _ | m
    · rw [hmu] at hs
      simp at hs
    · exact ⟨envInsert env3 a m, by simp [register, bindOk, unwrapMeta_ok, hmu]⟩
  | U16 u =>
    simp only [fold_expression, mapOk] at h
    obtain ⟨u1, hu1, he1⟩ := h
    subst he1
    have hs := foldU_ok_isSome hu1
    rcases hmu : u1.metadata with _ | m
    · rw [hmu] at hs
      simp at hs
    · exact ⟨envInsert env3 a m, by simp [register, bindOk, unwrapMeta_ok, hmu]⟩
  | U32 u =>
    simp only [fold_expression, mapOk] at h
    obtain ⟨u1, hu1, he1⟩ := h
    subst he1
    have hs := foldU_ok_isSome hu1
    rcases hmu : u1.metadata with _ | m
    · rw [hmu] at hs
      simp at hs
    · exact ⟨envInsert env3 a m, by simp [register, bindOk, unwrapMeta_ok, hmu]⟩
  | FieldElement fe =>
    simp only [fold_expression] at h
    injection h with he
    rw [← he]
    exact ⟨env3, rfl⟩
  | Boolean be =>
    simp only [fold_expression] at h
    injection h with he
    rw [← he]
    exact ⟨env3, rfl⟩

theorem foldReturnExpr_refold {reqBits : Nat} {env : Env} {e e1 : ZirExpression}
    (h : foldReturnExpr reqBits env e = .ok e1) :
    ∀ env2, foldReturnExpr reqBits env2 e1 = .ok e1 := by
  intro env2
  cases e with
  | U8 u =>
    simp only [foldReturnExpr, bindOk, unwrapMeta_ok] at h
    obtain ⟨u1, hu1, m, hm, hfin⟩ := h
    injection hfin with he
    have hr := foldU_ok_range hu1
    rw [← he]
    simp only [foldReturnExpr, bindOk, unwrapMeta_ok]
    exact ⟨.mk (some ⟨m.bitwidth, some true⟩) u1.inner, foldU_short hr,
      ⟨m.bitwidth, some true⟩, rfl, rfl⟩
  | U16 u =>
    simp only [foldReturnExpr, bindOk, unwrapMeta_ok] at h
    obtain ⟨u1, hu1, m, hm, hfin⟩ := h
    injection hfin with he
    have hr := foldU_ok_range hu1
    rw [← he]
    simp only [foldReturnExpr, bindOk, unwrapMeta_ok]
    exact ⟨.mk (some ⟨m.bitwidth, some true⟩) u1.inner, foldU_short hr,
      ⟨m.bitwidth, some true⟩, rfl, rfl⟩
  | U32 u =>
    simp only [foldReturnExpr, bindOk, unwrapMeta_ok] at h
    obtain ⟨u1, hu1, m, hm, hfin⟩ := h
    injection hfin with he
    have hr := foldU_ok_range hu1
    rw [← he]
    simp only [foldReturnExpr, bindOk, unwrapMeta_ok]
    exact ⟨.mk (some ⟨m.bitwidth, some true⟩) u1.inner, foldU_short hr,
      ⟨m.bitwidth, some true⟩, rfl, rfl⟩
  | FieldElement fe =>
    simp only [foldReturnExpr, fold_expression] at h
    injection h with he
    rw [← he]
    rfl
  | Boolean be =>
    simp only [foldReturnExpr, fold_expression] at h
    injection h with he
    rw [← he]
    rfl

theorem mapM_foldReturn_refold {reqBits : Nat} {env : Env} :
    ∀ (es es1 : List ZirExpression),
      es.mapM (foldReturnExpr reqBits env) = .ok es1 →
      ∀ env2, es1.mapM (foldReturnExpr reqBits env2) = .ok es1 := by
  intro es
  induction es with
  | nil =>
    intro es1 h env2
    rw [mapM_nil_ok] at h
    subst h
    rfl
  | cons a as ih =>
    intro es1 h env2
    rw [mapM_cons_ok] at h
    obtain ⟨b, bs, hb, hbs, hfin⟩ := h
    subst hfin
    rw [mapM_cons_ok]
    exact ⟨b, bs, foldReturnExpr_refold hb env2, ih bs hbs env2, rfl⟩

theorem fold_statement_refold {reqBits : Nat} {env env2 : Env}
    {s : ZirStatement} {out : List ZirStatement}
    (h : fold_statement reqBits env s = .ok (env2, out)) :
    ∃ s1, out = [s1] ∧
      ∀ env3, ∃ env4, fold_statement reqBits env3 s1 = .ok (env4, [s1]) := by
  cases s with
  | Definition a e =>
    simp only [fold_statement, bindOk] at h
    obtain ⟨e1, he1, env1, hreg, hfin⟩ := h
    injection hfin with hp
    injection hp with h1 h2
    refine ⟨.Definition a e1, h2.symm, ?_⟩
    intro env3
    obtain ⟨env4, hreg4⟩ := register_of_fold he1 env3 a
    refine ⟨env4, ?_⟩
    simp only [fold_statement, bindOk]
    exact ⟨e1, fold_expression_refold he1 env3, env4, hreg4, rfl⟩
  | Return es =>
    simp only [fold_statement, bindOk] at h
    obtain ⟨es1, hmap, hfin⟩ := h
    injection hfin with hp
    injection hp with h1 h2
    refine ⟨.Return es1, h2.symm, ?_⟩
    intro env3
    refine ⟨env3, ?_⟩
    simp only [fold_statement, bindOk]
    exact ⟨es1, mapM_foldReturn_refold es es1 hmap env3, rfl⟩
  | Assertion b =>
    simp only [fold_statement] at h
    injection h with hp
    injection hp with h1 h2
    exact ⟨.Assertion (fold_boolean_expression b), h2.symm,
      fun env3 => ⟨env3, rfl⟩⟩

theorem foldStatements_refold {reqBits : Nat} :
    ∀ (ss : List ZirStatement) (env env2 : Env) (out : List ZirStatement),
      foldStatements reqBits env ss = .ok (env2, out) →
      ∀ env3, ∃ env4, foldStatements reqBits env3 out = .ok (env4, out) := by
  intro ss
  induction ss with
  | nil =>
    intro env env2 out h env3
    simp only [foldStatements] at h
    injection h with hp
    injection hp with h1 h2
    exact ⟨env3, by rw [← h2]; rfl⟩
  | cons s rest ih =>
    intro env env2 out h env3
    simp only [foldStatements, bindOk] at h
    obtain ⟨p1, hp1, p2, hp2, hfin⟩ := h
    rcases p1 with ⟨env1, out0⟩
    rcases p2 with ⟨env5, outRest⟩
    injection hfin with hp
    injection hp with h1 h2
    obtain ⟨s1, hout0, hstable⟩ := fold_statement_refold hp1
    obtain ⟨env4, hs4⟩ := hstable env3
    obtain ⟨env6, hs6⟩ := ih env1 env5 outRest hp2 env4
    refine ⟨env6, ?_⟩
    rw [← h2, hout0]
    show foldStatements reqBits env3 (s1 :: outRest) = .ok (env6, [s1] ++ outRest)
    simp only [foldStatements, bindOk]
    exact ⟨(env4, [s1]), hs4, (env6, outRest), hs6, rfl⟩

theorem foldFunctions_refold {reqBits : Nat} :
    ∀ (fs : List ZirFunction) (env env2 : Env) (fs1 : List ZirFunction),
      foldFunctions reqBits env fs = .ok (env2, fs1) →
      ∀ env3, ∃ env4, foldFunctions reqBits env3 fs1 = .ok (env4, fs1) := by
  intro fs
  induction fs with
  | nil =>
    intro env env2 fs1 h env3
    simp only [foldFunctions] at h
    injection h with hp
    injection hp with h1 h2
    exact ⟨env3, by rw [← h2]; rfl⟩
  | cons f rest ih =>
    intro env env2 fs1 h env3
    simp only [foldFunctions, bindOk] at h
    obtain ⟨p1, hp1, p2, hp2, hfin⟩ := h
    rcases p1 with ⟨env1, sts⟩
    rcases p2 with ⟨env5, outRest⟩
    injection hfin with hp
    injection hp with h1 h2
    obtain ⟨env4, hs4⟩ := foldStatements_refold f.statements env env1 sts hp1 env3
    obtain ⟨env6, hs6⟩ := ih env1 env5 outRest hp2 env4
    refine ⟨env6, ?_⟩
    rw [← h2]
    simp only [foldFunctions, bindOk]
    exact ⟨(env4, sts), hs4, (env6, outRest), hs6, rfl⟩

/-- C5: Idempotence. An integer expression that already carries metadata is
returned by `fold_uint_expression` unchanged (given the field-size
precondition under which the fold returns at all), and running the whole
optimizer twice without clearing metadata is a no-op: if `optimize` maps `p`
to `q`, it maps `q` to `q`. -/
theorem C5_idempotence (reqBits : Nat) :
    (∀ (env : Env) (range : Nat) (e : UExp) (m : UMetadata),
      e.metadata = some m → range < (reqBits - 1) / 2 →
      foldU reqBits env range e = .ok e) ∧
    (∀ p q, optimize reqBits p = .ok q → optimize reqBits q = .ok q) := by
  constructor
  · intro env range e m hm hr
    rcases e with ⟨md, inner⟩
    simp [UExp.metadata] at hm
    subst hm
    exact foldU_short hr
  · intro p q h
    simp only [optimize, bindOk] at h
    obtain ⟨p1, hp1, hfin⟩ := h
    rcases p1 with ⟨env1, fs⟩
    injection hfin with he
    obtain ⟨env4, hs4⟩ := foldFunctions_refold p.functions [] env1 fs hp1 []
    simp only [optimize, bindOk]
    refine ⟨(env4, fs), ?_, ?_⟩
    · rw [← he]
      exact hs4
    · rw [← he]

/-- Witness for C5: an already-annotated node is returned unchanged, and a
concrete optimized program refolds to itself. -/
theorem C5_idempotence_witness :
    (foldU 254 [] 8 (.mk (some ⟨some 9, some false⟩) (.Value 1)) =
      .ok (.mk (some ⟨some 9, some false⟩) (.Value 1))) ∧
    (optimize 254
      ⟨[⟨[.Definition ⟨"a", 8⟩ (.U8 (.mk (some ⟨some 8, some false⟩) (.Value 3))),
          .Return [.U8 (.mk (some ⟨some 8, some true⟩) (.Identifier "a"))]]⟩]⟩ =
      .ok ⟨[⟨[.Definition ⟨"a", 8⟩ (.U8 (.mk (some ⟨some 8, some false⟩) (.Value 3))),
          .Return [.U8 (.mk (some ⟨some 8, some true⟩) (.Identifier "a"))]]⟩]⟩) :=
  ⟨(C5_idempotence 254).1 [] 8 (.mk (some ⟨some 9, some false⟩) (.Value 1))
      ⟨some 9, some false⟩ rfl (by decide),
   (C5_idempotence 254).2
      ⟨[⟨[.Definition ⟨"a", 8⟩ (.U8 (.mk none (.Value 3))),
          .Return [.U8 (.mk none (.Identifier "a"))]]⟩]⟩
      ⟨[⟨[.Definition ⟨"a", 8⟩ (.U8 (.mk (some ⟨some 8, some false⟩) (.Value 3))),
          .Return [.U8 (.mk (some ⟨some 8, some true⟩) (.Identifier "a"))]]⟩]⟩
      rfl⟩
